import Mathlib

/-!
Verification development for the chithi ZFS replication tool (ifazk/chobi).

The definitions below are shallow embeddings of the Rust sources under
src/.  Pure functions become Lean functions on Nat / String / List; string
operations are implemented on the underlying character lists so that all
definitions are executable by the kernel; machine integers (u64) become Nat
with explicit range checks where the source can overflow; fallible code
returns Option or Except.  Each definition carries a comment naming the
source item it embeds.
-/

namespace Chobi

/-! ## Basic string helpers (character-list implementations of the string
operations the Rust code uses) -/

/-- Membership of a character in a string, modelling Rust str::contains(char). -/
def strContains (s : String) (c : Char) : Bool := s.data.contains c

/-- Prefix test on character lists, modelling Rust str::starts_with. -/
def isPrefixList : List Char → List Char → Bool
  | [], _ => true
  | _ :: _, [] => false
  | p :: ps, x :: xs => p = x && isPrefixList ps xs

/-- Strip a prefix, modelling Rust str::strip_prefix: returns the remainder
when the prefix matches. -/
def dropPrefixList : List Char → List Char → Option (List Char)
  | [], l => some l
  | _ :: _, [] => none
  | p :: ps, x :: xs => if p = x then dropPrefixList ps xs else none

/-- Substring search, modelling Rust str::contains(&str) (also used for the
byte-window search in the sources). -/
def containsSubstr (hay needle : String) : Bool :=
  hay.data.tails.any (fun t => isPrefixList needle.data t)

/-- Split at the first occurrence of a character, modelling Rust
str::split_once on the character-list level. -/
def splitOnceList (c : Char) : List Char → Option (List Char × List Char)
  | [] => none
  | x :: xs =>
    if x = c then some ([], xs)
    else (splitOnceList c xs).map (fun p => (x :: p.1, p.2))

/-- Split at the first occurrence of a character, modelling Rust
str::split_once. -/
def split_once (s : String) (c : Char) : Option (String × String) :=
  (splitOnceList c s.data).map (fun p => (String.mk p.1, String.mk p.2))

/-- Decimal digit test, modelling char::is_ascii_digit. -/
def isDigitCh (c : Char) : Bool := '0' ≤ c && c ≤ '9'

/-- Numeric value of a digit run (the value str::parse::<u64> computes). -/
def digitsVal (l : List Char) : Nat :=
  l.foldl (fun acc c => acc * 10 + (c.toNat - '0'.toNat)) 0

/-- Parse of a u64 from a character list, modelling str::parse::<u64>: all
characters must be digits, the list must be non-empty, and the value must
fit in 64 bits (otherwise the Rust parse returns Err). -/
def parseU64 (l : List Char) : Option Nat :=
  if l ≠ [] && l.all isDigitCh && digitsVal l < 2 ^ 64 then some (digitsVal l) else none

/-! ## Data model: Creation, Snapshot (src/chithi/zfs.rs) -/

/-- Creation timestamp, from struct Creation in src/chithi/zfs.rs: epoch
seconds plus the running catalog-listing counter idx. -/
structure Creation where
  creation : Nat
  idx : Nat
deriving DecidableEq, Repr

/-- Lexicographic comparison on (creation, idx), the Ord instance Rust
derives for Creation. -/
def compareCreation (x y : Creation) : Ordering :=
  match compare x.creation y.creation with
  | Ordering.eq => compare x.idx y.idx
  | o => o

/-- Strict lexicographic order on Creation as a Bool, matching the derived
Rust Ord. -/
def creationLtb (x y : Creation) : Bool :=
  decide (x.creation < y.creation) ||
    (x.creation == y.creation && decide (x.idx < y.idx))

/-- Snapshot or bookmark entry, from struct Snapshot in src/chithi/zfs.rs.
The Rust type is generic over the string type; we use String. -/
structure Snapshot where
  name : String
  guid : String
  creation : Creation
deriving DecidableEq, Repr

/-- Synthetic newest snapshot, from Snapshot::fake_newest in
src/chithi/zfs.rs (FAKE_NEW_SYNC_GUID = "9999999999999999999",
FAKE_NEW_SYNC_CREATION = 9999999999, idx 0). -/
def Snapshot.fake_newest (name : String) : Snapshot :=
  { name := name, guid := "9999999999999999999",
    creation := { creation := 9999999999, idx := 0 } }

/-! ## C9: shell escaping (escape_str in src/chithi/cmd.rs) -/

/-- The character set escape_str tests with s.contains([...]) in
src/chithi/cmd.rs (the commented-out '=', ',', '-' entries are not in the
live list). -/
def escapeChars : List Char :=
  ['#', '\'', '"', ' ', '\t', '\n', '\r', '|', '&', ';', '<', '>', '(', ')',
   '$', '*', '?', '[', ']', '^', '!', '~', '%', '\x7b', '\x7d']

/-- Body of the escape loop in escape_str: each character is pushed, with a
single quote expanded to end-quote, backslash-escaped quote, restart-quote. -/
def escapeBody : List Char → List Char
  | [] => []
  | c :: cs =>
    if c = '\'' then '\'' :: '\\' :: '\'' :: '\'' :: escapeBody cs
    else c :: escapeBody cs

/-- Shell escaping from escape_str in src/chithi/cmd.rs: strings containing
a special character are wrapped in single quotes with embedded quotes
expanded; other strings are returned unchanged. -/
def escape_str (s : String) : String :=
  if s.data.any (fun c => escapeChars.contains c) then
    String.mk ('\'' :: (escapeBody s.data ++ ['\'']))
  else s

/-- Restatement of the claim wording for the quoted case: the result is the
input wrapped in single quotes with each embedded quote replaced by the
four-character sequence quote backslash quote quote. -/
def escapeSpecQuoted (s : String) : String :=
  String.mk
    ('\'' ::
      (s.data.flatMap (fun c =>
        if c = '\'' then ['\'', '\\', '\'', '\''] else [c]) ++ ['\'']))

theorem escapeBody_eq_flatMap (l : List Char) :
    escapeBody l =
      l.flatMap (fun c => if c = '\'' then ['\'', '\\', '\'', '\''] else [c]) := by
  induction l with
  | nil => rfl
  | cons c cs ih =>
    by_cases h : c = '\'' <;> simp [escapeBody, h, ih]

/-- C9: for every argument string, if it contains one of the special shell
characters the escaping function returns the string wrapped in single
quotes with each embedded single quote encoded as quote backslash quote
quote; otherwise it returns the string unchanged. -/
theorem C9_escape_str_spec (s : String) :
    (s.data.any (fun c => escapeChars.contains c) = true →
      escape_str s = escapeSpecQuoted s) ∧
    (s.data.any (fun c => escapeChars.contains c) = false →
      escape_str s = s) := by
  constructor
  · intro h
    simp only [escape_str, h]
    simp [escapeSpecQuoted, escapeBody_eq_flatMap]
  · intro h
    simp only [escape_str, h]
    simp

/-- Witness for C9 at concrete inputs: a string with a quote and space is
quoted with the embedded-quote encoding, and a plain string is unchanged. -/
theorem C9_escape_str_spec_witness :
    escape_str "it's a" = escapeSpecQuoted "it's a" ∧ escape_str "plain" = "plain" :=
  ⟨(C9_escape_str_spec "it's a").1 (by decide),
   (C9_escape_str_spec "plain").2 (by decide)⟩

/-! ## C10: privilege elevation (get_is_roots in src/chithi/fs.rs, Cmd in
src/chithi/cmd.rs) -/

/-- Inner helper of get_is_roots in src/chithi/fs.rs: when the host string
splits at an '@' the result is bypass_root_check OR user == "root";
otherwise None. -/
def get_is_root (host : Option String) (bypass : Bool) : Option Bool :=
  (host.bind (fun u => split_once u '@')).map (fun p => bypass || p.1 == "root")

/-- Root decision for both endpoints, from get_is_roots in
src/chithi/fs.rs.  The unsafe getuid() == 0 check on the local process is
modelled by the localIsRoot parameter. -/
def get_is_roots (source target : Option String) (bypass localIsRoot : Bool) :
    Bool × Bool :=
  match get_is_root source bypass, get_is_root target bypass with
  | some s, some t => (s, t)
  | s, t => (s.getD localIsRoot, t.getD localIsRoot)

/-- Command data, from struct Cmd in src/chithi/cmd.rs (the target field is
dropped here; rendering below is for the Local target). -/
structure Cmd where
  elevate : Bool
  base : String
  args : List String
deriving DecidableEq, Repr

/-- Local rendering of a command, from Cmd::to_cmd in src/chithi/cmd.rs:
when sudo is set the program is sudo with the base as first argument. -/
def Cmd.renderLocalArgv (c : Cmd) : List String :=
  if c.elevate then "sudo" :: c.base :: c.args else c.base :: c.args

/-- The source-side zfs command built in CmdConfig::new in
src/bin/chithi.rs line 65: sudo is the negation of source_is_root. -/
def mkSourceZfs (sourceIsRoot : Bool) : Cmd :=
  { elevate := !sourceIsRoot, base := "zfs", args := [] }

/-- The target-side zfs command built in CmdConfig::new in
src/bin/chithi.rs line 67: sudo is the negation of target_is_root. -/
def mkTargetZfs (targetIsRoot : Bool) : Cmd :=
  { elevate := !targetIsRoot, base := "zfs", args := [] }

/-- Statement of the claim wording: a host string containing '@' is root
iff bypass is passed or the part before the first '@' equals "root"; any
other endpoint falls back to whether the local process runs as uid 0. -/
def specIsRoot (host : Option String) (bypass localIsRoot : Bool) : Bool :=
  match host with
  | none => localIsRoot
  | some h =>
    if strContains h '@' then bypass || (h.data.takeWhile (fun c => c ≠ '@') == "root".data)
    else localIsRoot

theorem splitOnceList_none_iff (c : Char) (l : List Char) :
    splitOnceList c l = none ↔ l.contains c = false := by
  induction l with
  | nil => simp [splitOnceList]
  | cons x xs ih =>
    by_cases h : x = c
    · simp [splitOnceList, h]
    · simp [splitOnceList, h, Option.map_eq_none, ih, Ne.symm h]

theorem splitOnceList_fst (c : Char) (l : List Char) (p : List Char × List Char)
    (h : splitOnceList c l = some p) : p.1 = l.takeWhile (fun x => x ≠ c) := by
  induction l generalizing p with
  | nil => simp [splitOnceList] at h
  | cons x xs ih =>
    by_cases hx : x = c
    · rw [splitOnceList, if_pos hx] at h
      cases h
      subst hx
      simp [List.takeWhile_cons]
    · rw [splitOnceList, if_neg hx] at h
      cases hsp : splitOnceList c xs with
      | none => rw [hsp] at h; simp at h
      | some q =>
        rw [hsp, Option.map_some'] at h
        cases h
        rw [List.takeWhile_cons, if_pos (by simp [hx])]
        simpa using ih q hsp

theorem string_mk_beq (l m : List Char) : (String.mk l == String.mk m) = (l == m) := by
  by_cases h : l = m
  · simp [h]
  · have hne : String.mk l ≠ String.mk m := fun hc => h (congrArg String.data hc)
    simp [h, hne]

theorem get_is_root_eq_spec (host : Option String) (bypass localIsRoot : Bool) :
    (get_is_root host bypass).getD localIsRoot = specIsRoot host bypass localIsRoot := by
  cases host with
  | none => simp [get_is_root, specIsRoot]
  | some h =>
    have hg : get_is_root (some h) bypass
        = (split_once h '@').map (fun p => bypass || p.1 == "root") := rfl
    rw [hg, specIsRoot]
    by_cases hc : strContains h '@' = true
    · rw [if_pos hc]
      obtain ⟨p, hp⟩ : ∃ p, splitOnceList '@' h.data = some p := by
        cases hsp : splitOnceList '@' h.data with
        | none =>
          rw [splitOnceList_none_iff] at hsp
          rw [strContains, hsp] at hc
          cases hc
        | some q => exact ⟨q, rfl⟩
      have hfst := splitOnceList_fst '@' h.data p hp
      have hsplit : split_once h '@' = some (String.mk p.1, String.mk p.2) := by
        rw [split_once, hp, Option.map_some']
      rw [hsplit, Option.map_some', Option.getD_some]
      have hbeq : (String.mk p.1 == "root")
          = (h.data.takeWhile (fun c => c ≠ '@') == "root".data) := by
        rw [hfst]
        exact string_mk_beq _ _
      rw [hbeq]
    · rw [if_neg hc]
      have hnone : splitOnceList '@' h.data = none := by
        rw [splitOnceList_none_iff]
        rw [strContains] at hc
        exact Bool.not_eq_true _ ▸ Bool.of_not_eq_true hc
      rw [split_once, hnone]
      rfl

/-- C10: a zfs command for an endpoint is rendered with a sudo prefix
exactly when the endpoint is non-root, where an endpoint whose host string
contains '@' is root iff the user part equals "root" or
no-privilege-elevation is passed, and an endpoint without a user part falls
back to whether the local process uid is 0. -/
theorem C10_sudo_iff_not_root (source target : Option String) (bypass localIsRoot : Bool) :
    ((mkSourceZfs (get_is_roots source target bypass localIsRoot).1).renderLocalArgv.head?
        = some "sudo" ↔ specIsRoot source bypass localIsRoot = false) ∧
    ((mkTargetZfs (get_is_roots source target bypass localIsRoot).2).renderLocalArgv.head?
        = some "sudo" ↔ specIsRoot target bypass localIsRoot = false) := by
  have hs : (get_is_roots source target bypass localIsRoot).1
      = specIsRoot source bypass localIsRoot := by
    rw [← get_is_root_eq_spec source bypass localIsRoot]
    unfold get_is_roots
    cases h1 : get_is_root source bypass <;> cases h2 : get_is_root target bypass <;> simp
  have ht : (get_is_roots source target bypass localIsRoot).2
      = specIsRoot target bypass localIsRoot := by
    rw [← get_is_root_eq_spec target bypass localIsRoot]
    unfold get_is_roots
    cases h1 : get_is_root source bypass <;> cases h2 : get_is_root target bypass <;> simp
  rw [hs, ht]
  constructor
  · cases hspec : specIsRoot source bypass localIsRoot <;>
      simp [mkSourceZfs, Cmd.renderLocalArgv]
  · cases hspec : specIsRoot target bypass localIsRoot <;>
      simp [mkTargetZfs, Cmd.renderLocalArgv]

/-! ## C7: the synthetic fake-newest snapshot (Snapshot::fake_newest in
src/chithi/zfs.rs, appended in sync_dataset, src/bin/chithi.rs line 1204) -/

/-- Planner step from sync_dataset (src/bin/chithi.rs lines 1199-1205):
when a sync snapshot was just created and will not be re-listed this run,
the in-memory source list gets the synthetic fake-newest entry pushed at
the end (Vec::push appends). -/
def appendFakeNewest (sourceSnaps : List Snapshot) (newSnapName : String) :
    List Snapshot :=
  sourceSnaps ++ [Snapshot.fake_newest newSnapName]

/-- C7 counterexample: the claim states the synthetic entry's creation
equals 10^10, but FAKE_NEW_SYNC_CREATION is 9999999999 = 10^10 - 1. -/
theorem C7_fake_newest_creation_counterexample :
    (Snapshot.fake_newest "chithi_host_2025").creation.creation ≠ 10 ^ 10 := by
  decide

/-- C7 (amended): the planner appends to the end of the source snapshot
list a synthetic fake-newest entry whose guid parses to 10^19 - 1 and
whose creation equals 10^10 - 1 (with listing counter 0). -/
theorem C7_fake_newest_amended (sourceSnaps : List Snapshot) (newSnapName : String) :
    (appendFakeNewest sourceSnaps newSnapName).getLast?
        = some (Snapshot.fake_newest newSnapName) ∧
    (appendFakeNewest sourceSnaps newSnapName).dropLast = sourceSnaps ∧
    (Snapshot.fake_newest newSnapName).name = newSnapName ∧
    parseU64 (Snapshot.fake_newest newSnapName).guid.data = some (10 ^ 19 - 1) ∧
    (Snapshot.fake_newest newSnapName).creation.creation = 10 ^ 10 - 1 ∧
    (Snapshot.fake_newest newSnapName).creation.idx = 0 := by
  refine ⟨?_, ?_, rfl, ?_, ?_, rfl⟩
  · rw [appendFakeNewest, List.getLast?_concat]
  · rw [appendFakeNewest, List.dropLast_concat]
  · show parseU64 "9999999999999999999".data = some (10 ^ 19 - 1)
    decide
  · show (9999999999 : Nat) = 10 ^ 10 - 1
    norm_num

/-! ## C8: the send-size estimate (get_send_size in src/bin/chithi.rs
lines 351-401) -/

/-- Whitespace test covering the characters relevant to str::trim on the
command output handled here. -/
def isWhiteCh (c : Char) : Bool := c = ' ' || c = '\t' || c = '\n' || c = '\r'

/-- Both-ends trim, modelling str::trim. -/
def trimList (l : List Char) : List Char :=
  ((l.dropWhile isWhiteCh).reverse.dropWhile isWhiteCh).reverse

/-- The last line of a trimmed output, modelling trim().lines().last():
after the trim there is no trailing newline, so the last line is the suffix
after the final newline; an empty output has no lines. -/
def lastLine (l : List Char) : Option (List Char) :=
  match l with
  | [] => none
  | _ :: _ => some ((l.reverse.takeWhile (fun c => c ≠ '\n')).reverse)

/-- First item of rsplit_terminator(pred), as used on the size line.  With
terminator semantics the trailing empty piece is skipped, which amounts to
ignoring one trailing separator character when present; the first item is
then the run of non-separator characters at the end of what remains. -/
def rsplitTermFirst (p : Char → Bool) (l : List Char) : Option (List Char) :=
  match l.reverse with
  | [] => none
  | c :: rest =>
    let kept := if p c then rest else c :: rest
    some ((kept.takeWhile (fun x => !(p x))).reverse)

/-- Size parsing from get_send_size in src/bin/chithi.rs lines 385-398:
trim the stdout, take the last line, take the first rsplit_terminator piece
at non-digit characters, trim and parse it as u64, floor the value at 4096;
every failure along the way yields 0 via unwrap_or_default. -/
def parseSendSize (stdout : String) : Nat :=
  let ll := lastLine (trimList stdout.data)
  let seg := ll.bind (rsplitTermFirst (fun c => !(isDigitCh c)))
  match seg.bind (fun s => parseU64 (trimList s)) with
  | some n => if n < 4096 then 4096 else n
  | none => 0

/-- Result of get_send_size in src/bin/chithi.rs: a failed zfs invocation
is an error; a successful one returns the parsed size (which the claim is
about). -/
def get_send_size (statusSuccess : Bool) (stdout : String) : Except String Nat :=
  if statusSuccess then Except.ok (parseSendSize stdout)
  else Except.error "failed to get estimated send size"

/-- The trailing digit run of a line (the claim's "trailing numeric"). -/
def trailingDigits (l : List Char) : List Char :=
  (l.reverse.takeWhile isDigitCh).reverse

/-- C8 counterexample: a zfs invocation that succeeds with empty output is
a successful size estimate returning 0, below the claimed 4096 floor. -/
theorem C8_send_size_counterexample :
    get_send_size true "" = Except.ok 0 ∧ ¬ 4096 ≤ 0 :=
  ⟨rfl, by decide⟩

theorem isDigitCh_not_white (c : Char) (h : isDigitCh c = true) : isWhiteCh c = false := by
  rw [isWhiteCh]
  have h1 : ¬ c = ' ' := fun hc => by subst hc; exact absurd h (by decide)
  have h2 : ¬ c = '\t' := fun hc => by subst hc; exact absurd h (by decide)
  have h3 : ¬ c = '\n' := fun hc => by subst hc; exact absurd h (by decide)
  have h4 : ¬ c = '\r' := fun hc => by subst hc; exact absurd h (by decide)
  simp [h1, h2, h3, h4]

theorem dropWhile_eq_self_of_all_false {p : α → Bool} {l : List α}
    (h : ∀ x ∈ l, p x = false) : l.dropWhile p = l := by
  cases l with
  | nil => rfl
  | cons x xs => simp [List.dropWhile_cons, h x (List.mem_cons_self x xs)]

theorem trimList_all_digits {l : List Char} (h : ∀ x ∈ l, isDigitCh x = true) :
    trimList l = l := by
  rw [trimList]
  rw [dropWhile_eq_self_of_all_false (fun x hx => isDigitCh_not_white x (h x hx))]
  rw [dropWhile_eq_self_of_all_false
    (fun x hx => isDigitCh_not_white x (h x (List.mem_reverse.mp hx)))]
  exact List.reverse_reverse l

/-- C8 (amended): a successful size estimate returns either 0 (when the
output has no parsable trailing numeric, such as empty output) or at least
4096; whenever the last line of the trimmed output ends with a digit run
whose value fits in a u64, the returned value is exactly that trailing
numeric floored at 4096. -/
theorem C8_send_size_amended (stdout : String) :
    (parseSendSize stdout = 0 ∨ 4096 ≤ parseSendSize stdout) ∧
    (∀ l, lastLine (trimList stdout.data) = some l →
      trailingDigits l ≠ [] →
      digitsVal (trailingDigits l) < 2 ^ 64 →
      parseSendSize stdout =
        (if digitsVal (trailingDigits l) < 4096 then 4096
         else digitsVal (trailingDigits l))) := by
  constructor
  · simp only [parseSendSize]
    cases hp : ((lastLine (trimList stdout.data)).bind
        (rsplitTermFirst (fun c => !(isDigitCh c)))).bind
        (fun s => parseU64 (trimList s)) with
    | none => exact Or.inl rfl
    | some n =>
      right
      by_cases h : n < 4096
      · simp [h]
      · simp only [h, if_false]
        omega
  · intro l hl hne hlt
    have hrs : rsplitTermFirst (fun c => !(isDigitCh c)) l = some (trailingDigits l) := by
      cases hr : l.reverse with
      | nil =>
        exfalso
        apply hne
        rw [trailingDigits, hr]
        rfl
      | cons c rest =>
        have hc : isDigitCh c = true := by
          by_contra hcd
          apply hne
          rw [trailingDigits, hr, List.takeWhile_cons, if_neg (by simpa using hcd)]
          rfl
        simp only [rsplitTermFirst, hr, trailingDigits, hc, Bool.not_true,
          Bool.false_eq_true, if_false, Bool.not_not]
    have hall : (trailingDigits l).all isDigitCh = true := by
      rw [List.all_eq_true]
      intro x hx
      rw [trailingDigits, List.mem_reverse] at hx
      exact List.mem_takeWhile_imp hx
    have htrim : trimList (trailingDigits l) = trailingDigits l :=
      trimList_all_digits (List.all_eq_true.mp hall)
    have hparse : parseU64 (trailingDigits l) = some (digitsVal (trailingDigits l)) := by
      have hcond : (decide (trailingDigits l ≠ []) && (trailingDigits l).all isDigitCh
          && decide (digitsVal (trailingDigits l) < 2 ^ 64)) = true := by
        simp only [ne_eq, hne, not_false_eq_true, decide_True, hall, Bool.and_self,
          decide_eq_true_eq, Bool.and_eq_true, true_and]
        exact hlt
      rw [parseU64, if_pos hcond]
    simp only [parseSendSize, hl, Option.some_bind, hrs, htrim, hparse]

/-- Witness for C8 at a concrete output: the size line value 123 is
floored to 4096. -/
theorem C8_send_size_amended_witness : parseSendSize "full 1\nsize 123" = 4096 := by
  have h := (C8_send_size_amended "full 1\nsize 123").2 "size 123".data
    (by decide) (by decide) (by decide)
  rw [h]
  decide

/-! ## C1: stale-resume handling (sync_dataset in src/bin/chithi.rs lines
1174-1192, run_sync_pipelines in src/chithi/sync_pipelines.rs lines
901-904) -/

/-- Error kinds used by the resume handler (io::ErrorKind values the
sources construct). -/
inductive ErrKind
  | notFound
  | resourceBusy
  | otherErr
deriving DecidableEq, Repr

/-- An io::Error as the sources build them: a kind plus the message the
Display implementation prints. -/
structure IoError where
  kind : ErrKind
  msg : String
deriving DecidableEq, Repr

/-- RESUME_ERROR_1 from src/bin/chithi.rs line 36. -/
def RESUME_ERROR_1 : String := "used in the initial send no longer exists"

/-- Character class of the RESUME_ERROR_2 regex "incremental source
[0-9xa-f]+ no longer exists" from src/bin/chithi.rs lines 38-41. -/
def isResumeHexChar (c : Char) : Bool := isDigitCh c || c = 'x' || ('a' ≤ c && c ≤ 'f')

/-- Match of the RESUME_ERROR_2 regex at one position: the literal head,
then a non-empty greedy class run, then the literal tail.  Greedy matching
is equivalent to the regex here because the tail starts with a space, which
is outside the class. -/
def resumeRegexMatchAt (l : List Char) : Bool :=
  match dropPrefixList "incremental source ".data l with
  | none => false
  | some rest =>
    !(rest.takeWhile isResumeHexChar).isEmpty &&
      isPrefixList " no longer exists".data (rest.dropWhile isResumeHexChar)

/-- Unanchored search of the RESUME_ERROR_2 regex over the message. -/
def resumeRegexMatch (s : String) : Bool := s.data.tails.any resumeRegexMatchAt

/-- Error value of get_send_size on a failed zfs invocation
(src/bin/chithi.rs line 383): the zfs stderr is inherited to the terminal,
not folded into the message. -/
def sendSizeEstimateError : IoError :=
  { kind := ErrKind.otherErr, msg := "failed to get estimated send size" }

/-- Error value of the busy check in run_sync_cmd (src/bin/chithi.rs lines
467-473). -/
def busyError : IoError :=
  { kind := ErrKind.resourceBusy, msg := "target is already in zfs recv" }

/-- Error value of run_sync_pipelines on a failed pipeline
(src/chithi/sync_pipelines.rs lines 901-903): all stage stderr is inherited
to the terminal (Stdio::inherit), so the io::Error carries only this fixed
message whatever zfs printed. -/
def pipelineFailureError (_zfsStderr : String) : IoError :=
  { kind := ErrKind.otherErr, msg := "sync pipeline failed" }

/-- Outcome of the resume attempt handling in sync_dataset. -/
inductive ResumeStep
  | resumed
  | resetAndContinue
  | propagate (e : IoError)
deriving DecidableEq, Repr

/-- The stale-source test from sync_dataset lines 1177-1181: kind Other and
the message contains RESUME_ERROR_1 or matches the RESUME_ERROR_2 regex. -/
def resumeErrorIsStale (e : IoError) : Bool :=
  e.kind == ErrKind.otherErr &&
    (containsSubstr e.msg RESUME_ERROR_1 || resumeRegexMatch e.msg)

/-- Resume handling from sync_dataset lines 1174-1192: success marks
resumed; a stale-source error resets the receive state and continues;
every other error propagates. -/
def handleResume (res : Option IoError) : ResumeStep :=
  match res with
  | none => ResumeStep.resumed
  | some e =>
    if resumeErrorIsStale e then ResumeStep.resetAndContinue
    else ResumeStep.propagate e

/-- C1: the stale-token recovery branch is dead code.  An interrupted
resume surfaces as one of the fixed-message errors of get_send_size or
run_sync_pipelines, whose text never contains the zfs stderr; the handler
therefore propagates the failure for every possible zfs stderr - even the
exact stale-source text, which the detector itself would accept if it ever
saw it. -/
theorem C1_resume_stale_branch_unreachable (zfsStderr : String) :
    handleResume (some (pipelineFailureError zfsStderr))
        = ResumeStep.propagate (pipelineFailureError zfsStderr) ∧
    handleResume (some sendSizeEstimateError)
        = ResumeStep.propagate sendSizeEstimateError ∧
    handleResume (some busyError) = ResumeStep.propagate busyError ∧
    resumeErrorIsStale
      { kind := ErrKind.otherErr,
        msg := "incremental source 0x1234 no longer exists" } = true := by
  refine ⟨?_, by decide, by decide, by decide⟩
  show handleResume (some { kind := ErrKind.otherErr, msg := "sync pipeline failed" })
      = ResumeStep.propagate { kind := ErrKind.otherErr, msg := "sync pipeline failed" }
  decide

/-! ## C3 and C4: zfs destroy safety and the no-matching-snapshot path
(sync_dataset in src/bin/chithi.rs lines 1279-1356, prune_old_sync_snaps
lines 1039-1113) -/

/-- Outcome of the no-matching-snapshot branch of sync_dataset; the destroy
constructors carry the argv issued to zfs. -/
inductive NoMatchOutcome
  | failSmallTarget
  | failRootDataset
  | destroyThenFullNewest (argv : List String)
  | destroyThenRedo (argv : List String)
  | failCowardly
deriving DecidableEq, Repr

/-- The no-matching-snapshot branch of sync_dataset (src/bin/chithi.rs
lines 1282-1355): a target smaller than 64 MiB fails with guidance (also
under force-delete, line 1300); force-delete on a name without a slash
fails (lines 1309-1314); force-delete otherwise destroys the target with
destroy -r and redoes the initial sync (newest only under no-stream);
without force-delete it fails with the cowardly-refusing message. -/
def noMatchPlan (forceDelete : Bool) (targetFs : String) (usedBytes : Nat)
    (noStream : Bool) : NoMatchOutcome :=
  if usedBytes < 64 * 1024 * 1024 then NoMatchOutcome.failSmallTarget
  else if forceDelete && !(strContains targetFs '/') then NoMatchOutcome.failRootDataset
  else if forceDelete then
    if noStream then NoMatchOutcome.destroyThenFullNewest ["destroy", "-r", targetFs]
    else NoMatchOutcome.destroyThenRedo ["destroy", "-r", targetFs]
  else NoMatchOutcome.failCowardly

/-- Prune-name prefixes from prune_old_sync_snaps (src/bin/chithi.rs lines
1046-1056): format underscore identifier hostname. -/
def pruneFormatPrefixes (pruneFormats : List String) (identifier hostname : String) :
    List String :=
  pruneFormats.map (fun format => format ++ "_" ++ identifier ++ hostname)

/-- Snapshot arguments passed to zfs destroy by prune_old_sync_snaps
(src/bin/chithi.rs lines 1057-1069): every pruned snapshot except the one
just created whose name starts with a format prefix, rendered as
fs at-sign name. -/
def prune_old_sync_snaps_args (fsName : String) (snapshots : List Snapshot)
    (newSnapshot : String) (formatPrefixes : List String) : List String :=
  snapshots.filterMap (fun snap =>
    if snap.name == newSnapshot then none
    else if formatPrefixes.any (fun p => isPrefixList p.data snap.name.data) then
      some (fsName ++ "@" ++ snap.name)
    else none)

/-- C3 counterexample: pruning the sync snapshots of a pool-root source
(name without a slash) issues a zfs destroy whose argument contains no
slash, contradicting the claim that every destroy argument contains one. -/
theorem C3_destroy_slash_counterexample :
    prune_old_sync_snaps_args "pool"
        [{ name := "chithi_host1_old", guid := "g1",
           creation := { creation := 5, idx := 0 } }]
        "chithi_host1_new" (pruneFormatPrefixes ["chithi"] "" "host1")
      = ["pool@chithi_host1_old"] ∧
    strContains "pool@chithi_host1_old" '/' = false := by
  constructor
  · decide
  · decide

/-- C4 counterexample: the claim says the planner fails with guidance
exactly when the target is below 64 MiB and force-delete is disabled, but
with force-delete enabled and a small target the code still fails with
guidance instead of destroying. -/
theorem C4_no_match_counterexample :
    ¬ (∀ forceDelete targetFs usedBytes noStream,
        noMatchPlan forceDelete targetFs usedBytes noStream
            = NoMatchOutcome.failSmallTarget ↔
          (usedBytes < 64 * 1024 * 1024 ∧ forceDelete = false)) := by
  intro h
  have := (h true "pool/dst" 0 false).mp (by decide)
  exact absurd this.2 (by decide)

/-- C4 (amended): on a no-match target the planner fails with guidance
exactly when the target used size is below 64 MiB, regardless of
force-delete; above that, force-delete with a slash-containing name
destroys the target with destroy -r and redoes the initial sync from the
oldest snapshot (newest snapshot only under no-stream; the sync snapshot
of this invocation is not re-created), force-delete on a pool root fails,
and no force-delete fails with the cowardly-refusing message. -/
theorem C4_no_match_plan_amended (forceDelete : Bool) (targetFs : String)
    (usedBytes : Nat) (noStream : Bool) :
    (noMatchPlan forceDelete targetFs usedBytes noStream
        = NoMatchOutcome.failSmallTarget ↔ usedBytes < 64 * 1024 * 1024) ∧
    (¬ usedBytes < 64 * 1024 * 1024 → forceDelete = true →
      strContains targetFs '/' = true → noStream = false →
      noMatchPlan forceDelete targetFs usedBytes noStream
        = NoMatchOutcome.destroyThenRedo ["destroy", "-r", targetFs]) ∧
    (¬ usedBytes < 64 * 1024 * 1024 → forceDelete = true →
      strContains targetFs '/' = true → noStream = true →
      noMatchPlan forceDelete targetFs usedBytes noStream
        = NoMatchOutcome.destroyThenFullNewest ["destroy", "-r", targetFs]) ∧
    (¬ usedBytes < 64 * 1024 * 1024 → forceDelete = true →
      strContains targetFs '/' = false →
      noMatchPlan forceDelete targetFs usedBytes noStream
        = NoMatchOutcome.failRootDataset) ∧
    (¬ usedBytes < 64 * 1024 * 1024 → forceDelete = false →
      noMatchPlan forceDelete targetFs usedBytes noStream
        = NoMatchOutcome.failCowardly) := by
  refine ⟨⟨fun h => ?_, fun h => ?_⟩, fun h hfd hsl hns => ?_, fun h hfd hsl hns => ?_,
    fun h hfd hsl => ?_, fun h hfd => ?_⟩
  · by_contra hn
    rw [noMatchPlan, if_neg hn] at h
    by_cases h2 : forceDelete && !(strContains targetFs '/')
    · rw [if_pos h2] at h; cases h
    · rw [if_neg h2] at h
      by_cases h3 : forceDelete
      · rw [if_pos h3] at h
        by_cases h4 : noStream
        · rw [if_pos h4] at h; cases h
        · rw [if_neg h4] at h; cases h
      · rw [if_neg h3] at h; cases h
  · rw [noMatchPlan, if_pos h]
  · rw [noMatchPlan, if_neg h, if_neg (by simp [hfd, hsl]), if_pos hfd, if_neg (by simp [hns])]
  · rw [noMatchPlan, if_neg h, if_neg (by simp [hfd, hsl]), if_pos hfd, if_pos hns]
  · rw [noMatchPlan, if_neg h, if_pos (by simp [hfd, hsl])]
  · rw [noMatchPlan, if_neg h, if_neg (by simp [hfd]), if_neg (by simp [hfd])]

/-- Witness for C4 at concrete inputs: a 1 GiB target with force-delete
and a slash-containing name is destroyed and the sync redone. -/
theorem C4_no_match_plan_amended_witness :
    noMatchPlan true "pool/dst" (1024 * 1024 * 1024) false
      = NoMatchOutcome.destroyThenRedo ["destroy", "-r", "pool/dst"] :=
  (C4_no_match_plan_amended true "pool/dst" (1024 * 1024 * 1024) false).2.1
    (by decide) rfl (by decide) rfl

/-- C3 (amended): the target dataset is destroyed only under force-delete
with a slash-containing target name, with argv destroy dash-r target; and
every sync-snapshot pruning destroy has an argument of snapshot form
(containing an at-sign), which contains a slash whenever the pruned
dataset's name does (but need not when pruning a pool root). -/
theorem C3_destroy_safety_amended :
    (∀ forceDelete targetFs usedBytes noStream argv,
      (noMatchPlan forceDelete targetFs usedBytes noStream
          = NoMatchOutcome.destroyThenRedo argv ∨
       noMatchPlan forceDelete targetFs usedBytes noStream
          = NoMatchOutcome.destroyThenFullNewest argv) →
      forceDelete = true ∧ strContains targetFs '/' = true ∧
        argv = ["destroy", "-r", targetFs]) ∧
    (∀ fsName snapshots newSnapshot formatPrefixes arg,
      arg ∈ prune_old_sync_snaps_args fsName snapshots newSnapshot formatPrefixes →
      strContains arg '@' = true ∧
        (strContains fsName '/' = true → strContains arg '/' = true)) := by
  constructor
  · intro forceDelete targetFs usedBytes noStream argv hplan
    by_cases h1 : usedBytes < 64 * 1024 * 1024
    · rw [noMatchPlan, if_pos h1] at hplan
      rcases hplan with h | h <;> cases h
    · rw [noMatchPlan, if_neg h1] at hplan
      by_cases h2 : forceDelete && !(strContains targetFs '/')
      · rw [if_pos h2] at hplan
        rcases hplan with h | h <;> cases h
      · rw [if_neg h2] at hplan
        by_cases h3 : forceDelete
        · rw [if_pos h3] at hplan
          have hslash : strContains targetFs '/' = true := by
            simpa [h3] using h2
          by_cases h4 : noStream
          · rw [if_pos h4] at hplan
            rcases hplan with h | h
            · cases h
            · cases h; exact ⟨h3, hslash, rfl⟩
          · rw [if_neg h4] at hplan
            rcases hplan with h | h
            · cases h; exact ⟨h3, hslash, rfl⟩
            · cases h
        · rw [if_neg h3] at hplan
          rcases hplan with h | h <;> cases h
  · intro fsName snapshots newSnapshot formatPrefixes arg harg
    rw [prune_old_sync_snaps_args, List.mem_filterMap] at harg
    obtain ⟨snap, _, hsnap⟩ := harg
    by_cases hnew : snap.name == newSnapshot
    · rw [if_pos hnew] at hsnap; cases hsnap
    · rw [if_neg hnew] at hsnap
      by_cases hpre : formatPrefixes.any (fun p => isPrefixList p.data snap.name.data)
      · rw [if_pos hpre] at hsnap
        cases hsnap
        constructor
        · rw [strContains, String.data_append, String.data_append]
          simp
        · intro hfs
          rw [strContains, String.data_append, String.data_append]
          rw [strContains] at hfs
          simp at hfs ⊢
          exact Or.inl hfs
      · rw [if_neg hpre] at hsnap; cases hsnap

/-- Witness for C3 at concrete inputs: the force-delete destroy of a
slash-containing target and a prune destroy of a snapshot of a
slash-containing dataset. -/
theorem C3_destroy_safety_amended_witness :
    (true = true ∧ strContains "pool/dst" '/' = true ∧
      (["destroy", "-r", "pool/dst"] : List String) = ["destroy", "-r", "pool/dst"]) ∧
    (strContains "pool/a@chithi_host1_old" '@' = true ∧
      (strContains "pool/a" '/' = true →
        strContains "pool/a@chithi_host1_old" '/' = true)) :=
  ⟨C3_destroy_safety_amended.1 true "pool/dst" (1024 * 1024 * 1024) false
      ["destroy", "-r", "pool/dst"] (Or.inl (by decide)),
   C3_destroy_safety_amended.2 "pool/a"
      [{ name := "chithi_host1_old", guid := "g1",
         creation := { creation := 5, idx := 0 } }]
      "chithi_host1_new" ["chithi_host1"] "pool/a@chithi_host1_old" (by decide)⟩

/-! ## C5: the matching engine (get_matching_snapshot and
get_matching_bookmark in src/bin/chithi.rs lines 988-1037, composed at
lines 1264-1279) -/

/-- Lookup in the name-to-info map built by Snapshot::list_to_map
(src/chithi/zfs.rs lines 69-74): collecting into a HashMap lets a later
duplicate name overwrite an earlier one, so the lookup finds the last
entry with the name. -/
def guidLookup (l : List Snapshot) (name : String) : Option String :=
  (l.reverse.find? (fun s => s.name == name)).map (fun s => s.guid)

/-- The per-snapshot test of get_matching_snapshot (src/bin/chithi.rs lines
993-995): the target map has the name and the guids agree. -/
def snapMatches (T : String → Option String) (s : Snapshot) : Bool :=
  match T s.name with
  | some targetGuid => s.guid == targetGuid
  | none => false

/-- get_matching_snapshot from src/bin/chithi.rs lines 988-1004: the
enumerate().rev() scan returns the last (newest) element satisfying the
test together with the slice after it; recursing first on the rest prefers
exactly the later matches. -/
def getMatchingSnapshot (T : String → Option String) :
    List Snapshot → Option (Snapshot × List Snapshot)
  | [] => none
  | s :: rest =>
    match getMatchingSnapshot T rest with
    | some r => some r
    | none => if snapMatches T s then some (s, rest) else none

/-- The suffix from the first element satisfying p, modelling the
enumerate().find_map(...) index search plus slice-from-index in
get_matching_bookmark (src/bin/chithi.rs lines 1024-1032); the empty slice
when no element satisfies p. -/
def suffixFrom (p : Snapshot → Bool) : List Snapshot → List Snapshot
  | [] => []
  | s :: rest => if p s then s :: rest else suffixFrom p rest

/-- get_matching_bookmark from src/bin/chithi.rs lines 1006-1037: the
newest target snapshot whose guid is among the bookmark guids (rfind),
the newest bookmark with that guid (rfind; the expect is unreachable and
modelled as none), and the suffix of the source snapshots whose creation
epoch strictly exceeds the bookmark's. -/
def getMatchingBookmark
    (sortedTargetSnaps sortedSourceBookmarks sortedSourceSnaps : List Snapshot) :
    Option (Snapshot × List Snapshot) :=
  let bookmarkGuids := sortedSourceBookmarks.map (fun b => b.guid)
  match sortedTargetSnaps.reverse.find? (fun t => bookmarkGuids.contains t.guid) with
  | none => none
  | some targetSnap =>
    match sortedSourceBookmarks.reverse.find? (fun b => b.guid == targetSnap.guid) with
    | none => none
    | some bookmark =>
      some (bookmark,
        suffixFrom (fun snap => decide (bookmark.creation.creation < snap.creation.creation))
          sortedSourceSnaps)

/-- Tagged variant from IntermediateSource in src/chithi/zfs.rs. -/
inductive IntermediateSource
  | snap (s : Snapshot)
  | bookmark (b : Snapshot)
deriving DecidableEq, Repr

/-- Composition of the two matchers as sync_dataset does it
(src/bin/chithi.rs lines 1264-1279): the bookmark matcher runs only when
no snapshot matched. -/
def getMatchingSnapshotAndLater (sourceSnaps targetSnaps sourceBookmarks : List Snapshot) :
    Option (IntermediateSource × List Snapshot) :=
  match getMatchingSnapshot (guidLookup targetSnaps) sourceSnaps with
  | some (s, rest) => some (IntermediateSource.snap s, rest)
  | none =>
    match getMatchingBookmark targetSnaps sourceBookmarks sourceSnaps with
    | some (b, later) => some (IntermediateSource.bookmark b, later)
    | none => none

theorem getMatchingSnapshot_none {T : String → Option String} {l : List Snapshot}
    (h : getMatchingSnapshot T l = none) : ∀ x ∈ l, snapMatches T x = false := by
  induction l with
  | nil => intro x hx; cases hx
  | cons s rest ih =>
    intro x hx
    rw [getMatchingSnapshot] at h
    cases hrec : getMatchingSnapshot T rest with
    | some r => rw [hrec] at h; cases h
    | none =>
      rw [hrec] at h
      rcases List.mem_cons.mp hx with hx | hx
      · subst hx
        by_contra hm
        rw [if_pos (by simpa using hm)] at h
        cases h
      · exact ih hrec x hx

theorem getMatchingSnapshot_some {T : String → Option String} {l : List Snapshot}
    {s : Snapshot} {rest : List Snapshot}
    (h : getMatchingSnapshot T l = some (s, rest)) :
    ∃ pre, l = pre ++ s :: rest ∧ snapMatches T s = true ∧
      ∀ x ∈ rest, snapMatches T x = false := by
  induction l generalizing s rest with
  | nil => cases h
  | cons a l' ih =>
    rw [getMatchingSnapshot] at h
    cases hrec : getMatchingSnapshot T l' with
    | some r =>
      rw [hrec] at h
      cases h
      obtain ⟨pre, hpre, hm, hrest⟩ := ih hrec
      exact ⟨a :: pre, by rw [hpre]; rfl, hm, hrest⟩
    | none =>
      rw [hrec] at h
      by_cases hm : snapMatches T a
      · rw [if_pos hm] at h
        cases h
        exact ⟨[], rfl, hm, getMatchingSnapshot_none hrec⟩
      · rw [if_neg hm] at h
        cases h

theorem find?_some_split {p : α → Bool} {l : List α} {a : α}
    (h : l.find? p = some a) :
    ∃ pre post, l = pre ++ a :: post ∧ p a = true ∧ ∀ x ∈ pre, p x = false := by
  induction l with
  | nil => cases h
  | cons x xs ih =>
    by_cases hx : p x
    · rw [List.find?_cons_of_pos _ hx] at h
      cases h
      exact ⟨[], xs, rfl, hx, fun y hy => absurd hy (List.not_mem_nil y)⟩
    · rw [List.find?_cons_of_neg _ (by simpa using hx)] at h
      obtain ⟨pre, post, hl, hp, hpre⟩ := ih h
      refine ⟨x :: pre, post, by rw [hl]; rfl, hp, ?_⟩
      intro y hy
      rcases List.mem_cons.mp hy with hy | hy
      · subst hy; simpa using hx
      · exact hpre y hy

theorem reverse_find?_some {p : α → Bool} {l : List α} {a : α}
    (h : l.reverse.find? p = some a) :
    ∃ pre post, l = pre ++ a :: post ∧ p a = true ∧ ∀ x ∈ post, p x = false := by
  obtain ⟨pre, post, hl, hp, hpre⟩ := find?_some_split h
  refine ⟨post.reverse, pre.reverse, ?_, hp, ?_⟩
  · have := congrArg List.reverse hl
    rw [List.reverse_reverse, List.reverse_append, List.reverse_cons, List.append_assoc] at this
    simpa using this
  · intro x hx
    exact hpre x (List.mem_reverse.mp hx)

theorem suffixFrom_eq_filter {p : Snapshot → Bool} {l : List Snapshot}
    (hmono : l.Pairwise (fun a b => p a = true → p b = true)) :
    suffixFrom p l = l.filter p := by
  induction l with
  | nil => rfl
  | cons a l' ih =>
    rw [List.pairwise_cons] at hmono
    by_cases ha : p a
    · rw [suffixFrom, if_pos ha, List.filter_cons_of_pos ha]
      have : l'.filter p = l' := List.filter_eq_self.mpr (fun b hb => hmono.1 b hb ha)
      rw [this]
    · rw [suffixFrom, if_neg ha, List.filter_cons_of_neg (by simpa using ha)]
      exact ih hmono.2

theorem creationLtb_epoch_le {x y : Creation} (h : creationLtb x y = true) :
    x.creation ≤ y.creation := by
  rw [creationLtb] at h
  rcases Bool.or_eq_true _ _ |>.mp h with h | h
  · exact Nat.le_of_lt (of_decide_eq_true h)
  · exact Nat.le_of_eq (beq_iff_eq.mp (Bool.and_eq_true _ _ |>.mp h).1)

/-- C5: the matching engine returns the newest source snapshot whose guid
agrees with the target entry of the same name, with the tail being all of
the source list after it (and, the list being sorted, strictly newer than
it); it falls back to the newest bookmark whose guid equals the newest
matching target snapshot's guid, with the tail being the suffix of the
source list whose creation strictly exceeds the bookmark's; and it returns
nothing only when no snapshot and no bookmark matches. -/
theorem C5_matching_engine (sourceSnaps targetSnaps sourceBookmarks : List Snapshot)
    (hs : sourceSnaps.Pairwise (fun a b => creationLtb a.creation b.creation = true)) :
    (∀ s tail, getMatchingSnapshotAndLater sourceSnaps targetSnaps sourceBookmarks
        = some (IntermediateSource.snap s, tail) →
      ∃ pre, sourceSnaps = pre ++ s :: tail ∧
        snapMatches (guidLookup targetSnaps) s = true ∧
        (∀ x ∈ tail, snapMatches (guidLookup targetSnaps) x = false) ∧
        (∀ x ∈ tail, creationLtb s.creation x.creation = true)) ∧
    (∀ b tail, getMatchingSnapshotAndLater sourceSnaps targetSnaps sourceBookmarks
        = some (IntermediateSource.bookmark b, tail) →
      (∀ x ∈ sourceSnaps, snapMatches (guidLookup targetSnaps) x = false) ∧
      b ∈ sourceBookmarks ∧
      (∃ t pre2 post2, targetSnaps = pre2 ++ t :: post2 ∧ b.guid = t.guid ∧
        (∀ x ∈ post2,
          ((sourceBookmarks.map (fun bb => bb.guid)).contains x.guid) = false)) ∧
      tail = sourceSnaps.filter
        (fun x => decide (b.creation.creation < x.creation.creation)) ∧
      (∀ x ∈ tail, b.creation.creation < x.creation.creation)) ∧
    (getMatchingSnapshotAndLater sourceSnaps targetSnaps sourceBookmarks = none →
      (∀ x ∈ sourceSnaps, snapMatches (guidLookup targetSnaps) x = false) ∧
      (∀ t ∈ targetSnaps,
        ((sourceBookmarks.map (fun bb => bb.guid)).contains t.guid) = false)) := by
  refine ⟨?_, ?_, ?_⟩
  · intro s tail h
    rw [getMatchingSnapshotAndLater] at h
    cases hms : getMatchingSnapshot (guidLookup targetSnaps) sourceSnaps with
    | some r =>
      obtain ⟨r1, r2⟩ := r
      simp only [hms, Option.some.injEq, Prod.mk.injEq,
        IntermediateSource.snap.injEq] at h
      obtain ⟨rfl, rfl⟩ := h
      obtain ⟨pre, hpre, hm, hrest⟩ := getMatchingSnapshot_some hms
      refine ⟨pre, hpre, hm, hrest, ?_⟩
      have hsub : (r1 :: r2).Sublist sourceSnaps := by
        rw [hpre]
        exact List.sublist_append_right pre (r1 :: r2)
      have := (List.pairwise_cons.mp (hs.sublist hsub)).1
      exact this
    | none =>
      simp only [hms] at h
      cases hmb : getMatchingBookmark targetSnaps sourceBookmarks sourceSnaps with
      | none => simp only [hmb] at h; cases h
      | some rb =>
        obtain ⟨b0, later0⟩ := rb
        simp only [hmb, Option.some.injEq, Prod.mk.injEq] at h
        exact absurd h.1 (by intro hcontra; cases hcontra)
  · intro b tail h
    rw [getMatchingSnapshotAndLater] at h
    cases hms : getMatchingSnapshot (guidLookup targetSnaps) sourceSnaps with
    | some r =>
      obtain ⟨r1, r2⟩ := r
      simp only [hms, Option.some.injEq, Prod.mk.injEq] at h
      exact absurd h.1 (by intro hcontra; cases hcontra)
    | none =>
      simp only [hms] at h
      have hall := getMatchingSnapshot_none hms
      cases hmb : getMatchingBookmark targetSnaps sourceBookmarks sourceSnaps with
      | none => simp only [hmb] at h; cases h
      | some rb =>
        obtain ⟨b0, later0⟩ := rb
        simp only [hmb, Option.some.injEq, Prod.mk.injEq,
          IntermediateSource.bookmark.injEq] at h
        obtain ⟨rfl, rfl⟩ := h
        simp only [getMatchingBookmark] at hmb
        cases hft : targetSnaps.reverse.find?
            (fun t => (sourceBookmarks.map (fun bb => bb.guid)).contains t.guid) with
        | none => simp only [hft] at hmb; cases hmb
        | some targetSnap =>
          simp only [hft] at hmb
          cases hfb : sourceBookmarks.reverse.find?
              (fun bb => bb.guid == targetSnap.guid) with
          | none => simp only [hfb] at hmb; cases hmb
          | some bookmark =>
            simp only [hfb, Option.some.injEq, Prod.mk.injEq] at hmb
            obtain ⟨hbk, hsuf⟩ := hmb
            subst hbk
            have hfs := List.find?_some hfb
            simp only [beq_iff_eq] at hfs
            have hmem : bookmark ∈ sourceBookmarks :=
              List.mem_reverse.mp (List.mem_of_find?_eq_some hfb)
            obtain ⟨pre2, post2, htgt, hpt, hpost⟩ := reverse_find?_some hft
            have hmono : sourceSnaps.Pairwise
                (fun a c =>
                  (decide (bookmark.creation.creation < a.creation.creation)) = true →
                  (decide (bookmark.creation.creation < c.creation.creation)) = true) := by
              refine hs.imp ?_
              intro a c hac hlt
              have hle := creationLtb_epoch_le hac
              exact decide_eq_true
                (Nat.lt_of_lt_of_le (of_decide_eq_true hlt) hle)
            have hfilter := suffixFrom_eq_filter hmono
            refine ⟨hall, hmem, ⟨targetSnap, pre2, post2, htgt, hfs, hpost⟩, ?_, ?_⟩
            · rw [← hsuf, hfilter]
            · intro x hx
              rw [← hsuf, hfilter] at hx
              exact of_decide_eq_true (List.mem_filter.mp hx).2
  · intro h
    rw [getMatchingSnapshotAndLater] at h
    cases hms : getMatchingSnapshot (guidLookup targetSnaps) sourceSnaps with
    | some r =>
      obtain ⟨r1, r2⟩ := r
      simp only [hms] at h
      cases h
    | none =>
      simp only [hms] at h
      refine ⟨getMatchingSnapshot_none hms, ?_⟩
      cases hmb : getMatchingBookmark targetSnaps sourceBookmarks sourceSnaps with
      | some rb => simp only [hmb] at h; cases h
      | none =>
        simp only [getMatchingBookmark] at hmb
        cases hft : targetSnaps.reverse.find?
            (fun t => (sourceBookmarks.map (fun bb => bb.guid)).contains t.guid) with
        | none =>
          intro t ht
          have := List.find?_eq_none.mp hft t (List.mem_reverse.mpr ht)
          simpa using this
        | some targetSnap =>
          exfalso
          simp only [hft] at hmb
          have hcontains : ((sourceBookmarks.map (fun bb => bb.guid)).contains
              targetSnap.guid) = true := by
            have hp := List.find?_some hft
            simpa using hp
          have : ∃ bb ∈ sourceBookmarks.reverse,
              (bb.guid == targetSnap.guid) = true := by
            rw [List.contains_iff_exists_mem_beq] at hcontains
            obtain ⟨g, hg, hgb⟩ := hcontains
            obtain ⟨bb, hbb, rfl⟩ := List.mem_map.mp hg
            refine ⟨bb, List.mem_reverse.mpr hbb, ?_⟩
            rw [beq_iff_eq] at hgb ⊢
            exact hgb.symm
          obtain ⟨bb, hbb, hbeq⟩ := this
          cases hfb : sourceBookmarks.reverse.find?
              (fun b2 => b2.guid == targetSnap.guid) with
          | some bookmark => simp only [hfb] at hmb; cases hmb
          | none => exact absurd (List.find?_eq_none.mp hfb bb hbb) (by simp [hbeq])

/-- Witness for C5 at concrete inputs: with source snapshots S1, S2 and a
target holding S1, the engine matches S1 and the tail is the single newer
snapshot S2. -/
theorem C5_matching_engine_witness :
    ∃ pre, [⟨"S1", "A", ⟨10, 0⟩⟩, ⟨"S2", "B", ⟨20, 1⟩⟩]
        = pre ++ (⟨"S1", "A", ⟨10, 0⟩⟩ : Snapshot) :: [⟨"S2", "B", ⟨20, 1⟩⟩] ∧
      snapMatches (guidLookup [⟨"S1", "A", ⟨10, 0⟩⟩]) ⟨"S1", "A", ⟨10, 0⟩⟩ = true ∧
      (∀ x ∈ [(⟨"S2", "B", ⟨20, 1⟩⟩ : Snapshot)],
        snapMatches (guidLookup [⟨"S1", "A", ⟨10, 0⟩⟩]) x = false) ∧
      (∀ x ∈ [(⟨"S2", "B", ⟨20, 1⟩⟩ : Snapshot)],
        creationLtb (Creation.mk 10 0) x.creation = true) :=
  (C5_matching_engine [⟨"S1", "A", ⟨10, 0⟩⟩, ⟨"S2", "B", ⟨20, 1⟩⟩]
      [⟨"S1", "A", ⟨10, 0⟩⟩] [] (by decide)).1
    ⟨"S1", "A", ⟨10, 0⟩⟩ [⟨"S2", "B", ⟨20, 1⟩⟩] (by decide)

/-! ## C2: compression pairing in the pipeline composer
(src/chithi/compress.rs, ConnectionType::get_relevant_enabled and
OptionalCommands::new and build_sync_pipelines in
src/chithi/sync_pipelines.rs) -/

/-- Compression algorithm, from enum Compress in src/chithi/compress.rs. -/
inductive Compress
  | gzip
  | pigzFast
  | pigzSlow
  | zstdFast
  | zstdmtFast
  | zstdSlow
  | zstdmtSlow
  | xz
  | lzo
  | lz4
  | none
deriving DecidableEq, Repr

/-- Compressor command table entry, from struct CompressCommand in
src/chithi/compress.rs. -/
structure CompressCommand where
  base : String
  args : List String
  decompress : String
  decompressArgs : List String
deriving DecidableEq, Repr

/-- The compressor table from Compress::to_cmd in src/chithi/compress.rs
lines 74-137. -/
def Compress.to_cmd : Compress → Option CompressCommand
  | Compress.gzip => some ⟨"gzip", ["-3"], "zcat", []⟩
  | Compress.pigzFast => some ⟨"pigz", ["-3"], "pigz", ["-dc"]⟩
  | Compress.pigzSlow => some ⟨"pigz", ["-9"], "pigz", ["-dc"]⟩
  | Compress.zstdFast => some ⟨"zstd", ["-3"], "zstd", ["-dc"]⟩
  | Compress.zstdmtFast => some ⟨"zstdmt", ["-3"], "zstdmt", ["-dc"]⟩
  | Compress.zstdSlow => some ⟨"zstd", ["-19"], "zstd", ["-dc"]⟩
  | Compress.zstdmtSlow => some ⟨"zstdmt", ["-19"], "zstdmt", ["-dc"]⟩
  | Compress.xz => some ⟨"xz", [], "xz", ["-d"]⟩
  | Compress.lzo => some ⟨"lzop", [], "lzop", ["-dfc"]⟩
  | Compress.lz4 => some ⟨"lz4", [], "lz4", ["-dc"]⟩
  | Compress.none => Option.none

/-- Compress::is_some from src/chithi/compress.rs lines 139-141, verbatim:
matches! against Compress::None, so it returns true exactly for the none
setting - inverted relative to its name and to the unwrap-safety comment in
src/chithi/sync_pipelines.rs line 325. -/
def Compress.is_some : Compress → Bool
  | Compress.none => true
  | _ => false

/-- Connection topology, from enum ConnectionType in
src/chithi/sync_pipelines.rs lines 31-38. -/
inductive ConnectionType
  | localConn
  | push
  | pull
  | remoteDirect
  | remoteIndirect
deriving DecidableEq, Repr

/-- Args::direct_connection from src/chithi/args.rs lines 313-317: always
false for now. -/
def direct_connection : Bool := false

/-- ConnectionType::new from src/chithi/sync_pipelines.rs lines 41-58. -/
def connectionTypeNew (sourceRemote targetRemote : Bool) : ConnectionType :=
  match sourceRemote, targetRemote with
  | true, true =>
    if direct_connection then ConnectionType.remoteDirect
    else ConnectionType.remoteIndirect
  | true, false => ConnectionType.pull
  | false, true => ConnectionType.push
  | false, false => ConnectionType.localConn

/-- The argument fields consulted by get_relevant_enabled and
OptionalCommands::new; stderrIsTerminal models the
std::io::stderr().is_terminal() environment probe. -/
structure ArgsModel where
  compress : Compress
  skipOptionalCommands : List String
  quiet : Bool
  stderrIsTerminal : Bool
  noCommandChecks : Bool

/-- Args::optional_enabled from src/chithi/args.rs lines 291-293. -/
def ArgsModel.optional_enabled (a : ArgsModel) (s : String) : Bool :=
  !(a.skipOptionalCommands.contains s)

/-- ConnectionType::get_relevant_enabled from src/chithi/sync_pipelines.rs
lines 61-160; HashSet inserts become list appends (only membership is
consulted downstream). -/
def getRelevantEnabled (ct : ConnectionType) (args : ArgsModel) : List String :=
  let usePv := args.stderrIsTerminal && !args.quiet
  let useCompress := args.compress.is_some
  match ct with
  | ConnectionType.localConn =>
    (if args.optional_enabled "localpv" && usePv then ["localpv"] else []) ++
    (if args.optional_enabled "localmbuffer" then ["localmbuffer"] else [])
  | ConnectionType.push =>
    (if args.optional_enabled "localpv" && usePv then ["localpv"] else []) ++
    (if args.optional_enabled "localmbuffer" then ["localmbuffer"] else []) ++
    (if args.optional_enabled "localcompress" && args.optional_enabled "compress"
        && useCompress then ["localcompress", "targetcompress"] else []) ++
    (if args.optional_enabled "targetmbuffer" then ["targetmbuffer"] else [])
  | ConnectionType.pull =>
    (if args.optional_enabled "compress" && args.optional_enabled "localcompress"
        && useCompress then ["sourcecompress", "localcompress"] else []) ++
    (if args.optional_enabled "sourcembuffer" then ["sourcembuffer"] else []) ++
    (if args.optional_enabled "localmbuffer" then ["localmbuffer"] else []) ++
    (if args.optional_enabled "localpv" && !args.quiet then ["localpv"] else [])
  | ConnectionType.remoteDirect =>
    (if args.optional_enabled "sourcepv" && usePv then ["sourcepv"] else []) ++
    (if args.optional_enabled "compress" && useCompress then ["compress"] else []) ++
    (if args.optional_enabled "sourcembuffer" then ["sourcembuffer"] else []) ++
    (if args.optional_enabled "targetmbuffer" then ["targetmbuffer"] else []) ++
    (if args.optional_enabled "targetpv" && usePv then ["targetpv"] else [])
  | ConnectionType.remoteIndirect =>
    (if args.optional_enabled "sourcepv" && usePv then ["sourcepv"] else []) ++
    (if args.optional_enabled "compress" && useCompress then
      ["compress"] ++
        (if args.optional_enabled "localcompress" && args.optional_enabled "localpv"
            && usePv then ["localcompress", "localpv"] else [])
     else if args.optional_enabled "localpv" && usePv then ["localpv"] else []) ++
    (if args.optional_enabled "sourcembuffer" then ["sourcembuffer"] else []) ++
    (if args.optional_enabled "targetmbuffer" then ["targetmbuffer"] else []) ++
    (if args.optional_enabled "localmbuffer" then ["localmbuffer"] else [])

/-- The hop a probed optional command runs on. -/
inductive Hop
  | sourceHop
  | targetHop
  | localHop
deriving DecidableEq, Repr

/-- Identity of a probed optional command: its hop and program name (the
data the existence check depends on). -/
structure CmdId where
  hop : Hop
  base : String
deriving DecidableEq, Repr

/-- OptionalCommands::check from src/chithi/sync_pipelines.rs lines
184-190: no_command_checks short-circuits to available. -/
def checkCmd (args : ArgsModel) (avail : CmdId → Bool) (c : CmdId) : Bool :=
  args.noCommandChecks || avail c

/-- insert_all_checked and insert_all_delay_warn from
src/chithi/sync_pipelines.rs lines 205-250: every command is checked (the
(host, base) de-duplication only avoids repeated probes of identical
commands) and all are inserted exactly when every check passes; the Bool
reports whether the insert happened (the two variants differ only in when
the warning is printed). -/
def insertAllChecked (args : ArgsModel) (avail : CmdId → Bool)
    (cmds : List (String × CmdId)) (inner : List (String × CmdId)) :
    List (String × CmdId) × Bool :=
  if cmds.all (fun c => checkCmd args avail c.2) then (inner ++ cmds, true)
  else (inner, false)

/-- insert_first_no_warn from src/chithi/sync_pipelines.rs lines 251-263:
the first command whose check passes is inserted. -/
def insertFirstNoWarn (args : ArgsModel) (avail : CmdId → Bool)
    (cmds : List (String × CmdId)) (inner : List (String × CmdId)) :
    List (String × CmdId) × Bool :=
  match cmds.find? (fun c => checkCmd args avail c.2) with
  | some c => (inner ++ [c], true)
  | Option.none => (inner, false)

/-- Option::unwrap as Except, modelling the panic on None. -/
def unwrapE {α : Type} : Option α → Except String α
  | some a => Except.ok a
  | Option.none => Except.error "called Option::unwrap on a None value"

/-- The four compressor commands allocated in OptionalCommands::new
(src/chithi/sync_pipelines.rs lines 326-361): local compress, local
decompress, source compress, target decompress; None exactly when the none
compressor is configured (to_cmd returns None).  The four separate Rust
unwraps become one unwrap of the tuple, which panics in the same cases. -/
def compressCmds (args : ArgsModel) : Option (CmdId × CmdId × CmdId × CmdId) :=
  args.compress.to_cmd.map (fun cc =>
    (⟨Hop.localHop, cc.base⟩, ⟨Hop.localHop, cc.decompress⟩,
     ⟨Hop.sourceHop, cc.base⟩, ⟨Hop.targetHop, cc.decompress⟩))

/-- OptionalCommands::new from src/chithi/sync_pipelines.rs lines 265-707:
given the topology, the arguments and the availability of each probed
command, computes the inner key-to-command map that build_sync_pipelines
consults (only the insertion tags and command identities are modelled);
the Except models the unwrap panics. -/
def optionalCommandsNew (ct : ConnectionType) (args : ArgsModel)
    (avail : CmdId → Bool) : Except String (List (String × CmdId)) := do
  let enabled := getRelevantEnabled ct args
  let localPv : CmdId := ⟨Hop.localHop, "pv"⟩
  let sourcePv : CmdId := ⟨Hop.sourceHop, "pv"⟩
  let targetPv : CmdId := ⟨Hop.targetHop, "pv"⟩
  let localSourceMbuffer : CmdId := ⟨Hop.localHop, "mbuffer"⟩
  let localTargetMbuffer : CmdId := ⟨Hop.localHop, "mbuffer"⟩
  let sourceMbuffer : CmdId := ⟨Hop.sourceHop, "mbuffer"⟩
  let targetMbuffer : CmdId := ⟨Hop.targetHop, "mbuffer"⟩
  match ct with
  | ConnectionType.localConn =>
    let inner : List (String × CmdId) := []
    let inner := if enabled.contains "localpv" then
        (insertAllChecked args avail [("sourcepv", localPv)] inner).1
      else inner
    let inner := if enabled.contains "localmbuffer" then
        (insertAllChecked args avail [("sourcembuffer", localSourceMbuffer)] inner).1
      else inner
    return inner
  | ConnectionType.push =>
    let inner : List (String × CmdId) := []
    let inner := if enabled.contains "localpv" then
        (insertAllChecked args avail [("sourcepv", localPv)] inner).1
      else inner
    let inner := if enabled.contains "localmbuffer" then
        (insertAllChecked args avail [("sourcembuffer", localSourceMbuffer)] inner).1
      else inner
    let inner ←
      if enabled.contains "localcompress" && enabled.contains "compress" then do
        let cc ← unwrapE (compressCmds args)
        pure (insertAllChecked args avail
          [("sourcecompress", cc.1), ("targetcompress", cc.2.2.2)] inner).1
      else pure inner
    let inner := if enabled.contains "targetmbuffer" then
        (insertAllChecked args avail [("targetmbuffer", targetMbuffer)] inner).1
      else inner
    return inner
  | ConnectionType.pull =>
    let inner : List (String × CmdId) := []
    let inner ←
      if enabled.contains "compress" && enabled.contains "localcompress" then do
        let cc ← unwrapE (compressCmds args)
        pure (insertAllChecked args avail
          [("sourcecompress", cc.2.2.1), ("targetcompress", cc.2.1)] inner).1
      else pure inner
    let inner := if enabled.contains "sourcembuffer" then
        (insertAllChecked args avail [("sourcembuffer", sourceMbuffer)] inner).1
      else inner
    let inner := if enabled.contains "localmbuffer" then
        (insertAllChecked args avail [("targetmbuffer", localTargetMbuffer)] inner).1
      else inner
    let inner := if enabled.contains "localpv" then
        (insertAllChecked args avail [("targetpv", localPv)] inner).1
      else inner
    return inner
  | ConnectionType.remoteDirect =>
    let inner : List (String × CmdId) := []
    let inner :=
      if enabled.contains "sourcepv" && enabled.contains "targetpv" then
        (insertFirstNoWarn args avail
          [("sourcepv", sourcePv), ("targetpv", targetPv)] inner).1
      else if enabled.contains "sourcepv" then
        (insertAllChecked args avail [("sourcepv", sourcePv)] inner).1
      else if enabled.contains "targetpv" then
        (insertAllChecked args avail [("targetpv", targetPv)] inner).1
      else inner
    let inner ←
      if enabled.contains "compress" then do
        let cc ← unwrapE (compressCmds args)
        pure (insertAllChecked args avail
          [("sourcecompress", cc.2.2.1), ("targetcompress", cc.2.2.2)] inner).1
      else pure inner
    let inner := if enabled.contains "sourcembuffer" then
        (insertAllChecked args avail [("sourcembuffer", sourceMbuffer)] inner).1
      else inner
    let inner := if enabled.contains "targetmbuffer" then
        (insertAllChecked args avail [("targetmbuffer", targetMbuffer)] inner).1
      else inner
    return inner
  | ConnectionType.remoteIndirect =>
    let inner : List (String × CmdId) := []
    let r1 ←
      if enabled.contains "compress" then do
        let cc ← unwrapE (compressCmds args)
        pure (insertAllChecked args avail
          [("sourcecompress", cc.2.2.1), ("targetcompress", cc.2.2.2)] inner)
      else pure (inner, false)
    let r2 ←
      if r1.2 then
        if enabled.contains "localpv" && enabled.contains "localcompress" then do
          let cc ← unwrapE (compressCmds args)
          pure (insertAllChecked args avail
            [("localpv", localPv), ("localcompress", cc.1),
             ("localdecompress", cc.2.1)] r1.1)
        else pure (r1.1, false)
      else if enabled.contains "localpv" then
        pure (insertAllChecked args avail [("localpv", localPv)] r1.1)
      else pure (r1.1, false)
    let inner :=
      if !r2.2 && enabled.contains "sourcepv" then
        (insertAllChecked args avail [("sourcepv", sourcePv)] r2.1).1
      else r2.1
    let inner := if enabled.contains "sourcembuffer" then
        (insertAllChecked args avail [("sourcembuffer", sourceMbuffer)] inner).1
      else inner
    let inner := if enabled.contains "targetmbuffer" then
        (insertAllChecked args avail [("targetmbuffer", targetMbuffer)] inner).1
      else inner
    let inner :=
      if r2.2 && enabled.contains "localmbuffer" then
        let r := insertAllChecked args avail
          [("localsourcembuffer", localSourceMbuffer)] inner
        if r.2 then r.1 ++ [("localtargetmbuffer", localTargetMbuffer)] else r.1
      else inner
    return inner

/-- Whether the inner map holds a stage key (the inner.get lookups at the
top of build_sync_pipelines, src/chithi/sync_pipelines.rs lines 736-746). -/
def innerHasKey (inner : List (String × CmdId)) (k : String) : Bool :=
  inner.any (fun e => e.1 == k)

/-- The stage-key layout of build_sync_pipelines
(src/chithi/sync_pipelines.rs lines 748-844): per topology, the ordered
optional-stage keys of each composed pipeline, with send and recv as the
mandatory stages; an optional stage appears exactly when its key is in the
inner map. -/
def pipelineStageKeys (ct : ConnectionType) (inner : List (String × CmdId)) :
    List (List String) :=
  let opt := fun (k : String) => if innerHasKey inner k then [k] else []
  match ct with
  | ConnectionType.localConn =>
    [["send"] ++ opt "sourcepv" ++ opt "sourcembuffer" ++ ["recv"]]
  | ConnectionType.push =>
    [["send"] ++ opt "sourcepv" ++ opt "sourcecompress" ++ opt "sourcembuffer",
     opt "targetcompress" ++ opt "targetmbuffer" ++ ["recv"]]
  | ConnectionType.pull =>
    [["send"] ++ opt "sourcecompress" ++ opt "sourcembuffer",
     opt "targetcompress" ++ opt "targetmbuffer" ++ opt "targetpv" ++ ["recv"]]
  | ConnectionType.remoteDirect =>
    [["send"] ++ opt "sourcepv" ++ opt "sourcecompress" ++ opt "sourcembuffer",
     opt "targetcompress" ++ opt "targetmbuffer" ++ opt "targetpv" ++ ["recv"]]
  | ConnectionType.remoteIndirect =>
    [["send"] ++ opt "sourcepv" ++ opt "sourcecompress" ++ opt "sourcembuffer",
     opt "localtargetmbuffer" ++ opt "localdecompress" ++ opt "localpv" ++
       opt "localcompress" ++ opt "localsourcembuffer",
     opt "targetcompress" ++ opt "targetmbuffer" ++ ["recv"]]

/-- The stage keys that render a compression or decompression stage in
build_sync_pipelines. -/
def compressionKeys : List String :=
  ["sourcecompress", "targetcompress", "localcompress", "localdecompress"]

theorem is_some_false_of_ne_none {c : Compress} (hc : c ≠ Compress.none) :
    c.is_some = false := by
  cases c <;> first | rfl | exact absurd rfl hc

theorem enabled_compress_false (ct : ConnectionType) (args : ArgsModel)
    (hc : args.compress ≠ Compress.none) :
    ((getRelevantEnabled ct args).contains "compress") = false := by
  have hs := is_some_false_of_ne_none hc
  cases ct <;> simp [getRelevantEnabled, hs]

/-- Absence of every compression stage key from a key-command list. -/
def noCompressKeys (inner : List (String × CmdId)) : Prop :=
  ∀ k ∈ compressionKeys, innerHasKey inner k = false

theorem noCompressKeys_nil : noCompressKeys [] := by
  intro k _
  rfl

theorem noCompressKeys_append {l₁ l₂ : List (String × CmdId)}
    (h₁ : noCompressKeys l₁) (h₂ : noCompressKeys l₂) :
    noCompressKeys (l₁ ++ l₂) := by
  intro k hk
  have e₁ := h₁ k hk
  have e₂ := h₂ k hk
  rw [innerHasKey] at e₁ e₂ ⊢
  rw [List.any_append, e₁, e₂]
  rfl

theorem noCompressKeys_single {s : String} {x : CmdId}
    (h : s ∉ compressionKeys) : noCompressKeys [(s, x)] := by
  intro k hk
  rw [innerHasKey]
  simp only [List.any_cons, List.any_nil, Bool.or_false]
  rw [beq_eq_false_iff_ne]
  intro hsk
  exact h (hsk ▸ hk)

theorem noCompressKeys_ite {c : Prop} [Decidable c] {l₁ l₂ : List (String × CmdId)}
    (h₁ : noCompressKeys l₁) (h₂ : noCompressKeys l₂) :
    noCompressKeys (if c then l₁ else l₂) := by
  split
  · exact h₁
  · exact h₂

theorem noCompressKeys_insertAllChecked (args : ArgsModel) (avail : CmdId → Bool)
    {cmds inner : List (String × CmdId)}
    (hi : noCompressKeys inner) (hcmds : noCompressKeys cmds) :
    noCompressKeys (insertAllChecked args avail cmds inner).1 := by
  rw [insertAllChecked]
  split
  · exact noCompressKeys_append hi hcmds
  · exact hi

theorem noCompressKeys_insertFirstNoWarn (args : ArgsModel) (avail : CmdId → Bool)
    {cmds inner : List (String × CmdId)}
    (hi : noCompressKeys inner) (hcmds : noCompressKeys cmds) :
    noCompressKeys (insertFirstNoWarn args avail cmds inner).1 := by
  rw [insertFirstNoWarn]
  cases hf : cmds.find? (fun c => checkCmd args avail c.2) with
  | none => exact hi
  | some c =>
    have hmem := List.mem_of_find?_eq_some hf
    intro k hk
    have e₁ := hi k hk
    have e₂ := hcmds k hk
    rw [innerHasKey] at e₁ e₂ ⊢
    rw [List.any_append, e₁]
    simp only [List.any_cons, List.any_nil, Bool.or_false, Bool.false_or]
    simp only [List.any_eq_false] at e₂
    exact Bool.eq_false_iff.mpr (e₂ c hmem)

theorem noCompressKeys_cons {s : String} {x : CmdId} {rest : List (String × CmdId)}
    (h : s ∉ compressionKeys) (hr : noCompressKeys rest) :
    noCompressKeys ((s, x) :: rest) := by
  intro k hk
  have e := hr k hk
  rw [innerHasKey] at e ⊢
  rw [List.any_cons, e, Bool.or_false]
  rw [beq_eq_false_iff_ne]
  intro hsk
  have hskk : s = k := hsk
  exact h (hskk ▸ hk)

theorem not_mem_opt {k : String} {inner : List (String × CmdId)}
    (hfalse : innerHasKey inner k = false) (k2 : String) :
    k ∉ (if innerHasKey inner k2 then [k2] else []) := by
  split
  case isTrue hkey =>
    intro hm
    rcases List.mem_singleton.mp hm with rfl
    rw [hfalse] at hkey
    cases hkey
  case isFalse => exact List.not_mem_nil k

theorem not_mem_lit {k s : String} (hne : k ≠ s) : k ∉ [s] := by
  intro hm
  exact hne (List.mem_singleton.mp hm)

theorem not_mem_append2 {k : String} {l₁ l₂ : List String}
    (h₁ : k ∉ l₁) (h₂ : k ∉ l₂) : k ∉ l₁ ++ l₂ := by
  intro hm
  rcases List.mem_append.mp hm with hm | hm
  · exact h₁ hm
  · exact h₂ hm

set_option maxHeartbeats 2000000

/-- C2 (code bug): with any compressor other than none configured, the
inner map built by OptionalCommands::new never receives a compression
stage key - whatever the topology, the skip list, and the availability
check results - so the composed pipelines never include a compress or
decompress stage.  Compress::is_some is inverted (it is true only for the
none setting) and the Push and Pull arms additionally test the tag
"compress" that get_relevant_enabled never inserts for them. -/
theorem C2_compression_never_composed (ct : ConnectionType) (args : ArgsModel)
    (avail : CmdId → Bool) (inner : List (String × CmdId))
    (hc : args.compress ≠ Compress.none)
    (hnew : optionalCommandsNew ct args avail = Except.ok inner) :
    (∀ k ∈ compressionKeys, innerHasKey inner k = false) ∧
    (∀ stages ∈ pipelineStageKeys ct inner, ∀ k ∈ compressionKeys, k ∉ stages) := by
  have hcf := enabled_compress_false ct args hc
  have hmain : noCompressKeys inner := by
    cases ct
    case localConn =>
      simp only [optionalCommandsNew] at hnew
      cases hnew
      repeat'
        first
        | exact noCompressKeys_nil
        | apply noCompressKeys_ite
        | apply noCompressKeys_append
        | apply noCompressKeys_insertAllChecked
        | apply noCompressKeys_insertFirstNoWarn
        | apply noCompressKeys_cons
        | decide
    case push =>
      simp only [optionalCommandsNew, hcf, Bool.and_false] at hnew
      simp only [Bool.false_eq_true, if_false, pure_bind] at hnew
      cases hnew
      repeat'
        first
        | exact noCompressKeys_nil
        | apply noCompressKeys_ite
        | apply noCompressKeys_append
        | apply noCompressKeys_insertAllChecked
        | apply noCompressKeys_insertFirstNoWarn
        | apply noCompressKeys_cons
        | decide
    case pull =>
      simp only [optionalCommandsNew, hcf, Bool.false_and] at hnew
      simp only [Bool.false_eq_true, if_false, pure_bind] at hnew
      cases hnew
      repeat'
        first
        | exact noCompressKeys_nil
        | apply noCompressKeys_ite
        | apply noCompressKeys_append
        | apply noCompressKeys_insertAllChecked
        | apply noCompressKeys_insertFirstNoWarn
        | apply noCompressKeys_cons
        | decide
    case remoteDirect =>
      simp only [optionalCommandsNew, hcf] at hnew
      simp only [Bool.false_eq_true, if_false, pure_bind] at hnew
      cases hnew
      repeat'
        first
        | exact noCompressKeys_nil
        | apply noCompressKeys_ite
        | apply noCompressKeys_append
        | apply noCompressKeys_insertAllChecked
        | apply noCompressKeys_insertFirstNoWarn
        | apply noCompressKeys_cons
        | decide
    case remoteIndirect =>
      by_cases hlp : ((getRelevantEnabled ConnectionType.remoteIndirect args).contains
          "localpv") = true
      · simp only [optionalCommandsNew, hcf, hlp] at hnew
        simp only [Bool.false_eq_true, if_false, if_true, pure_bind] at hnew
        cases hnew
        repeat'
          first
          | exact noCompressKeys_nil
          | apply noCompressKeys_ite
          | apply noCompressKeys_append
          | apply noCompressKeys_insertAllChecked
          | apply noCompressKeys_insertFirstNoWarn
          | apply noCompressKeys_cons
          | decide
      · simp only [optionalCommandsNew, hcf, hlp] at hnew
        simp only [Bool.false_eq_true, if_false, pure_bind] at hnew
        cases hnew
        repeat'
          first
          | exact noCompressKeys_nil
          | apply noCompressKeys_ite
          | apply noCompressKeys_append
          | apply noCompressKeys_insertAllChecked
          | apply noCompressKeys_insertFirstNoWarn
          | apply noCompressKeys_cons
          | decide
  refine ⟨fun k hk => hmain k hk, ?_⟩
  intro stages hst k hk
  have hfalse := hmain k hk
  have hneq1 : k ≠ "send" := fun hcontra => absurd (hcontra ▸ hk) (by decide)
  have hneq2 : k ≠ "recv" := fun hcontra => absurd (hcontra ▸ hk) (by decide)
  cases ct <;> simp only [pipelineStageKeys] at hst <;> fin_cases hst <;>
    repeat'
      first
      | apply not_mem_append2
      | exact not_mem_lit hneq1
      | exact not_mem_lit hneq2
      | exact not_mem_opt hfalse _

set_option maxHeartbeats 400000

/-- Fixed arguments for the C2 witness: a push sync with the default lzo
compressor, nothing skipped, a terminal on stderr and no quiet flag. -/
def argsPushLzo : ArgsModel :=
  { compress := Compress.lzo, skipOptionalCommands := [], quiet := false,
    stderrIsTerminal := true, noCommandChecks := false }

/-- Availability oracle for the C2 witness: every probed binary exists. -/
def availAll : CmdId → Bool := fun _ => true

/-- The optional-command map a push sync with the default lzo compressor
and every binary available actually produces. -/
def innerPushLzo : List (String × CmdId) :=
  [("sourcepv", (⟨Hop.localHop, "pv"⟩ : CmdId)),
   ("sourcembuffer", (⟨Hop.localHop, "mbuffer"⟩ : CmdId)),
   ("targetmbuffer", (⟨Hop.targetHop, "mbuffer"⟩ : CmdId))]

/-- Witness for C2 at a concrete input: a push sync with the lzo
compressor and all binaries available still composes none of the four
compression stages. -/
theorem C2_compression_never_composed_witness :
    innerHasKey innerPushLzo "sourcecompress" = false ∧
    innerHasKey innerPushLzo "targetcompress" = false ∧
    innerHasKey innerPushLzo "localcompress" = false ∧
    innerHasKey innerPushLzo "localdecompress" = false :=
  ⟨(C2_compression_never_composed ConnectionType.push argsPushLzo availAll innerPushLzo
      (by decide) rfl).1 "sourcecompress" (List.mem_cons_self _ _),
   (C2_compression_never_composed ConnectionType.push argsPushLzo availAll innerPushLzo
      (by decide) rfl).1 "targetcompress"
      (List.mem_cons_of_mem _ (List.mem_cons_self _ _)),
   (C2_compression_never_composed ConnectionType.push argsPushLzo availAll innerPushLzo
      (by decide) rfl).1 "localcompress"
      (List.mem_cons_of_mem _ (List.mem_cons_of_mem _ (List.mem_cons_self _ _))),
   (C2_compression_never_composed ConnectionType.push argsPushLzo availAll innerPushLzo
      (by decide) rfl).1 "localdecompress"
      (List.mem_cons_of_mem _ (List.mem_cons_of_mem _
        (List.mem_cons_of_mem _ (List.mem_cons_self _ _))))⟩

/-! ## C6: catalog sorting (get_snaps in src/bin/chithi.rs lines 660-778)

get_snaps parses the tab-separated zfs get output into a map of
snapshot name to (guid, creation) pairs, numbering each creation row
with the running creation_counter, filters by snap_is_included, and
sorts the resulting vector with the closure at lines 758-775:
names compare only when the Creation pairs (epoch, counter) are equal,
otherwise the derived lexicographic Creation order decides.

The pre-sort vector order is the HashMap iteration order. Because the
counter values attached to the entries of one listing are pairwise
distinct, the comparator is an antisymmetric total order on them, so
every comparison sort returns the same output for every pre-sort
arrangement; we therefore build the pre-sort list in listing order and
model the stable Vec sort_by with List.insertionSort. -/

/-- Character comparison by Unicode scalar value. Rust compares String
keys byte by byte in UTF-8; lexicographic UTF-8 byte order coincides
with lexicographic scalar-value order. -/
def compareCh (a b : Char) : Ordering := compare a.toNat b.toNat

/-- Lexicographic comparison of character lists, the character-level
view of Rust String cmp. -/
def compareCharList : List Char → List Char → Ordering
  | [], [] => Ordering.eq
  | [], _ :: _ => Ordering.lt
  | _ :: _, [] => Ordering.gt
  | a :: as, b :: bs =>
    match compareCh a b with
    | Ordering.eq => compareCharList as bs
    | o => o

/-- String comparison, the Ord instance Rust uses for name_x.cmp(name_y). -/
def compareStr (x y : String) : Ordering := compareCharList x.data y.data

/-- The sort_by closure of get_snaps (src/bin/chithi.rs lines 758-775):
creation_x.eq(creation_y) picks the name comparison, anything else the
derived Creation comparison. -/
def snapCmp (x y : Snapshot) : Ordering :=
  if x.creation == y.creation then compareStr x.name y.name
  else compareCreation x.creation y.creation

/-- Nonstrict comparator order: Vec sort_by sorts into the order where
no element compares Greater with its successor. -/
def snapLe (x y : Snapshot) : Bool := !(snapCmp x y == Ordering.gt)

/-- snapLe as a relation, for the Mathlib sorting lemmas. -/
def snapRel (x y : Snapshot) : Prop := snapLe x y = true

instance : DecidableRel snapRel := fun x y => instDecidableEqBool (snapLe x y) true

/-- One snapshot row group of the zfs get listing: the snapshot name
with its guid value and its parsed creation value, in listing order. -/
structure CatalogEntry where
  name : String
  guid : String
  creationEpoch : Nat
deriving DecidableEq, Repr

/-- The creation_counter loop of get_snaps: row i of the listing gets
Creation { creation = epoch, idx = counter }, counter running up from
its start value. -/
def assignIdx : Nat → List CatalogEntry → List Snapshot
  | _, [] => []
  | n, e :: rest =>
    { name := e.name, guid := e.guid,
      creation := { creation := e.creationEpoch, idx := n } } :: assignIdx (n + 1) rest

/-- get_snaps on a parsed catalog: number the rows from 0, keep the
snapshots accepted by snap_is_included (the included oracle), sort with
the snapCmp closure. -/
def get_snaps (catalog : List CatalogEntry) (included : String → Bool) : List Snapshot :=
  List.insertionSort snapRel ((assignIdx 0 catalog).filter (fun s => included s.name))

/-- Observable content of a returned snapshot: creation epoch seconds,
name and guid (as character lists), forgetting the internal listing
counter. -/
def snapKey (s : Snapshot) : Nat × List Char × List Char :=
  (s.creation.creation, s.name.data, s.guid.data)

/-- Observable content of a catalog row. -/
def entryKey (e : CatalogEntry) : Nat × List Char × List Char :=
  (e.creationEpoch, e.name.data, e.guid.data)

/-- Include oracle of a run with no include/exclude snapshot filters. -/
def includeAll : String → Bool := fun _ => true

theorem natCompare_swap (a b : Nat) : compare a b = (compare b a).swap := by
  rcases Nat.lt_trichotomy a b with h | h | h
  · rw [Nat.compare_eq_lt.mpr h, Nat.compare_eq_gt.mpr h]
    rfl
  · subst h
    rw [Nat.compare_eq_eq.mpr rfl]
    rfl
  · rw [Nat.compare_eq_gt.mpr h, Nat.compare_eq_lt.mpr h]
    rfl

theorem natCompare_lt_trans {a b c : Nat} (h1 : compare a b = Ordering.lt)
    (h2 : compare b c = Ordering.lt) : compare a c = Ordering.lt :=
  Nat.compare_eq_lt.mpr (Nat.lt_trans (Nat.compare_eq_lt.mp h1) (Nat.compare_eq_lt.mp h2))

theorem compareCreation_swap (x y : Creation) :
    compareCreation x y = (compareCreation y x).swap := by
  simp only [compareCreation]
  rw [natCompare_swap x.creation y.creation, natCompare_swap x.idx y.idx]
  cases compare y.creation x.creation <;> cases compare y.idx x.idx <;> rfl

theorem compareCreation_eq_iff {x y : Creation} :
    compareCreation x y = Ordering.eq ↔ x = y := by
  simp only [compareCreation]
  constructor
  · intro h
    cases hc : compare x.creation y.creation <;> rw [hc] at h
    · cases h
    · cases x
      cases y
      simp_all [Nat.compare_eq_eq]
    · cases h
  · intro h
    subst h
    rw [Nat.compare_eq_eq.mpr rfl, Nat.compare_eq_eq.mpr rfl]

theorem compareCreation_lt_iff {x y : Creation} :
    compareCreation x y = Ordering.lt ↔
      (x.creation < y.creation ∨ (x.creation = y.creation ∧ x.idx < y.idx)) := by
  simp only [compareCreation]
  rcases Nat.lt_trichotomy x.creation y.creation with h | h | h
  · rw [Nat.compare_eq_lt.mpr h]
    constructor
    · intro _
      exact Or.inl h
    · intro _
      rfl
  · rw [h, Nat.compare_eq_eq.mpr rfl]
    constructor
    · intro hi
      exact Or.inr ⟨rfl, Nat.compare_eq_lt.mp hi⟩
    · rintro (hlt | ⟨-, hi⟩)
      · exact absurd hlt (Nat.lt_irrefl _)
      · exact Nat.compare_eq_lt.mpr hi
  · rw [Nat.compare_eq_gt.mpr h]
    constructor
    · intro hc
      cases hc
    · rintro (hlt | ⟨he, -⟩)
      · exact absurd (Nat.lt_trans h hlt) (Nat.lt_irrefl _)
      · rw [he] at h
        exact absurd h (Nat.lt_irrefl _)

theorem compareCreation_lt_trans {x y z : Creation}
    (h1 : compareCreation x y = Ordering.lt) (h2 : compareCreation y z = Ordering.lt) :
    compareCreation x z = Ordering.lt := by
  rw [compareCreation_lt_iff] at h1 h2 ⊢
  rcases h1 with h1 | ⟨he1, hi1⟩ <;> rcases h2 with h2 | ⟨he2, hi2⟩
  · exact Or.inl (Nat.lt_trans h1 h2)
  · exact Or.inl (he2 ▸ h1)
  · exact Or.inl (by rw [he1]; exact h2)
  · exact Or.inr ⟨he1.trans he2, Nat.lt_trans hi1 hi2⟩

theorem compareCh_swap (a b : Char) : compareCh a b = (compareCh b a).swap :=
  natCompare_swap a.toNat b.toNat

theorem compareCh_eq_iff {a b : Char} : compareCh a b = Ordering.eq ↔ a = b := by
  constructor
  · intro h
    exact Char.ext (UInt32.ext (Nat.compare_eq_eq.mp h))
  · intro h
    subst h
    exact Nat.compare_eq_eq.mpr rfl

theorem compareCh_lt_trans {a b c : Char} (h1 : compareCh a b = Ordering.lt)
    (h2 : compareCh b c = Ordering.lt) : compareCh a c = Ordering.lt :=
  natCompare_lt_trans h1 h2

theorem compareCharList_swap : ∀ (a b : List Char),
    compareCharList a b = (compareCharList b a).swap
  | [], [] => rfl
  | [], _ :: _ => rfl
  | _ :: _, [] => rfl
  | x :: xs, y :: ys => by
    simp only [compareCharList]
    rw [compareCh_swap x y, compareCharList_swap xs ys]
    cases compareCh y x <;> cases compareCharList ys xs <;> rfl

theorem compareCharList_eq_iff : ∀ {a b : List Char},
    compareCharList a b = Ordering.eq ↔ a = b
  | [], [] => by simp [compareCharList]
  | [], _ :: _ => by simp [compareCharList]
  | _ :: _, [] => by simp [compareCharList]
  | x :: xs, y :: ys => by
    simp only [compareCharList]
    constructor
    · intro h
      cases hxy : compareCh x y <;> rw [hxy] at h
      · cases h
      · rw [compareCh_eq_iff.mp hxy, compareCharList_eq_iff.mp h]
      · cases h
    · intro h
      injection h with h1 h2
      subst h1
      subst h2
      rw [compareCh_eq_iff.mpr rfl]
      exact compareCharList_eq_iff.mpr rfl

theorem compareCharList_lt_trans : ∀ {a b c : List Char},
    compareCharList a b = Ordering.lt → compareCharList b c = Ordering.lt →
    compareCharList a c = Ordering.lt
  | [], [], _, h1, _ => by cases h1
  | [], _ :: _, [], _, h2 => by cases h2
  | [], _ :: _, _ :: _, _, _ => rfl
  | _ :: _, [], _, h1, _ => by cases h1
  | _ :: _, _ :: _, [], _, h2 => by cases h2
  | x :: xs, y :: ys, z :: zs, h1, h2 => by
    simp only [compareCharList] at h1 h2 ⊢
    cases hxy : compareCh x y <;> rw [hxy] at h1
    · cases hyz : compareCh y z <;> rw [hyz] at h2
      · rw [compareCh_lt_trans hxy hyz]
      · have hyz' : y = z := compareCh_eq_iff.mp hyz
        subst hyz'
        rw [hxy]
      · exact Ordering.noConfusion h2
    · have hxy' : x = y := compareCh_eq_iff.mp hxy
      subst hxy'
      cases hxz : compareCh x z <;> rw [hxz] at h2
      · exact compareCharList_lt_trans h1 h2
      · exact Ordering.noConfusion h2
    · cases h1

theorem snapCmp_swap (x y : Snapshot) : snapCmp x y = (snapCmp y x).swap := by
  simp only [snapCmp]
  by_cases h : x.creation = y.creation
  · rw [if_pos (beq_iff_eq.mpr h), if_pos (beq_iff_eq.mpr h.symm)]
    simp only [compareStr]
    exact compareCharList_swap _ _
  · rw [if_neg (fun hb => h (beq_iff_eq.mp hb)),
      if_neg (fun hb => h (beq_iff_eq.mp hb).symm)]
    exact compareCreation_swap _ _

theorem snapCmp_eq_parts {x y : Snapshot} (h : snapCmp x y = Ordering.eq) :
    x.creation = y.creation ∧ x.name = y.name := by
  simp only [snapCmp] at h
  by_cases hc : x.creation = y.creation
  · rw [if_pos (beq_iff_eq.mpr hc)] at h
    simp only [compareStr] at h
    refine ⟨hc, ?_⟩
    have hd : x.name.data = y.name.data := compareCharList_eq_iff.mp h
    cases hx : x.name
    cases hy : y.name
    rw [hx, hy] at hd
    exact congrArg String.mk (by simpa using hd)
  · rw [if_neg (fun hb => hc (beq_iff_eq.mp hb))] at h
    exact absurd (compareCreation_eq_iff.mp h) hc

theorem snapCmp_congr_left {x y : Snapshot} (h : snapCmp x y = Ordering.eq)
    (z : Snapshot) : snapCmp x z = snapCmp y z := by
  obtain ⟨hc, hn⟩ := snapCmp_eq_parts h
  simp only [snapCmp, hc, hn]

theorem snapCmp_congr_right {y z : Snapshot} (h : snapCmp y z = Ordering.eq)
    (x : Snapshot) : snapCmp x y = snapCmp x z := by
  obtain ⟨hc, hn⟩ := snapCmp_eq_parts h
  simp only [snapCmp, hc, hn]

theorem snapCmp_lt_trans {x y z : Snapshot} (h1 : snapCmp x y = Ordering.lt)
    (h2 : snapCmp y z = Ordering.lt) : snapCmp x z = Ordering.lt := by
  simp only [snapCmp] at h1 h2
  by_cases hxy : x.creation = y.creation
  · rw [if_pos (beq_iff_eq.mpr hxy)] at h1
    by_cases hyz : y.creation = z.creation
    · have hxz : x.creation = z.creation := hxy.trans hyz
      rw [if_pos (beq_iff_eq.mpr hyz)] at h2
      simp only [snapCmp, if_pos (beq_iff_eq.mpr hxz), compareStr]
      simp only [compareStr] at h1 h2
      exact compareCharList_lt_trans h1 h2
    · rw [if_neg (fun hb => hyz (beq_iff_eq.mp hb))] at h2
      have hxz : ¬ x.creation = z.creation := fun h => hyz (hxy ▸ h)
      simp only [snapCmp]
      rw [if_neg (fun hb => hxz (beq_iff_eq.mp hb)), hxy]
      exact h2
  · rw [if_neg (fun hb => hxy (beq_iff_eq.mp hb))] at h1
    by_cases hyz : y.creation = z.creation
    · simp only [snapCmp, ← hyz]
      rw [if_neg (fun hb => hxy (beq_iff_eq.mp hb))]
      exact h1
    · rw [if_neg (fun hb => hyz (beq_iff_eq.mp hb))] at h2
      have hlt := compareCreation_lt_trans h1 h2
      have hxz : ¬ x.creation = z.creation := by
        intro h
        rw [h] at hlt
        rw [compareCreation_eq_iff.mpr rfl] at hlt
        cases hlt
      simp only [snapCmp]
      rw [if_neg (fun hb => hxz (beq_iff_eq.mp hb))]
      exact hlt

theorem snapLe_trans {x y z : Snapshot} (h1 : snapLe x y = true)
    (h2 : snapLe y z = true) : snapLe x z = true := by
  simp only [snapLe] at h1 h2 ⊢
  cases hxy : snapCmp x y <;> rw [hxy] at h1
  · cases hyz : snapCmp y z <;> rw [hyz] at h2
    · rw [snapCmp_lt_trans hxy hyz]
      rfl
    · rw [← snapCmp_congr_right hyz x, hxy]
      rfl
    · exact Bool.noConfusion h2
  · rw [snapCmp_congr_left hxy z]
    exact h2
  · exact Bool.noConfusion h1

instance : IsTotal Snapshot snapRel where
  total x y := by
    simp only [snapRel, snapLe]
    cases h : snapCmp x y
    · left
      rfl
    · left
      rfl
    · right
      rw [snapCmp_swap y x, h]
      rfl

instance : IsTrans Snapshot snapRel where
  trans _ _ _ h1 h2 := snapLe_trans h1 h2

theorem snapRel_ne_imp_lt {a b : Snapshot} (h : snapRel a b)
    (hne : a.creation.creation ≠ b.creation.creation) :
    a.creation.creation < b.creation.creation := by
  rcases Nat.lt_trichotomy a.creation.creation b.creation.creation with hlt | heq | hgt
  · exact hlt
  · exact absurd heq hne
  · exfalso
    have hcne : a.creation ≠ b.creation := fun h' => hne (congrArg Creation.creation h')
    have hgt' : snapCmp a b = Ordering.gt := by
      simp only [snapCmp]
      rw [if_neg (fun hb => hcne (beq_iff_eq.mp hb))]
      simp only [compareCreation]
      rw [Nat.compare_eq_gt.mpr hgt]
    rw [snapRel, snapLe, hgt'] at h
    exact Bool.noConfusion h

theorem mem_assignIdx {s : Snapshot} : ∀ {n : Nat} {l : List CatalogEntry},
    s ∈ assignIdx n l → ∃ e ∈ l, s.creation.creation = e.creationEpoch := by
  intro n l
  induction l generalizing n with
  | nil => intro h; cases h
  | cons e rest ih =>
    intro h
    rcases List.mem_cons.mp h with h | h
    · exact ⟨e, List.mem_cons_self _ _, by rw [h]⟩
    · obtain ⟨e', he', heq⟩ := ih h
      exact ⟨e', List.mem_cons_of_mem _ he', heq⟩

theorem assignIdx_pairwise_ne {catalog : List CatalogEntry}
    (h : catalog.Pairwise (fun a b => a.creationEpoch ≠ b.creationEpoch)) :
    ∀ n, (assignIdx n catalog).Pairwise
      (fun a b => a.creation.creation ≠ b.creation.creation) := by
  induction catalog with
  | nil => intro n; exact List.Pairwise.nil
  | cons e rest ih =>
    intro n
    rcases List.pairwise_cons.mp h with ⟨hhead, htail⟩
    refine List.pairwise_cons.mpr ⟨?_, ih htail (n + 1)⟩
    intro s hs
    obtain ⟨e', he', heq⟩ := mem_assignIdx hs
    rw [heq]
    exact hhead e' he'

theorem assignIdx_key (included : String → Bool) :
    ∀ (n : Nat) (catalog : List CatalogEntry),
    ((assignIdx n catalog).filter (fun s => included s.name)).map snapKey
      = (catalog.filter (fun e => included e.name)).map entryKey := by
  intro n catalog
  induction catalog generalizing n with
  | nil => rfl
  | cons e rest ih =>
    simp only [assignIdx, List.filter]
    by_cases h : included e.name
    · simp only [h]
      simp only [List.map_cons, ih]
      rfl
    · simp only [Bool.eq_false_iff.mpr h]
      exact ih (n + 1)

theorem get_snaps_key_sorted (catalog : List CatalogEntry) (included : String → Bool)
    (hdistinct : catalog.Pairwise (fun a b => a.creationEpoch ≠ b.creationEpoch)) :
    List.Pairwise (fun (p q : Nat × List Char × List Char) => p.1 < q.1)
      ((get_snaps catalog included).map snapKey) := by
  have hsorted : List.Pairwise snapRel (get_snaps catalog included) :=
    List.sorted_insertionSort snapRel _
  have hne1 : ((assignIdx 0 catalog).filter (fun s => included s.name)).Pairwise
      (fun a b => a.creation.creation ≠ b.creation.creation) :=
    List.Pairwise.sublist (List.filter_sublist _) (assignIdx_pairwise_ne hdistinct 0)
  have hne2 : (get_snaps catalog included).Pairwise
      (fun a b => a.creation.creation ≠ b.creation.creation) :=
    (List.Perm.pairwise_iff (fun h => Ne.symm h) (List.perm_insertionSort snapRel _)).mpr hne1
  have hlt : (get_snaps catalog included).Pairwise
      (fun a b => a.creation.creation < b.creation.creation) :=
    (hsorted.and hne2).imp (fun h => snapRel_ne_imp_lt h.1 h.2)
  exact List.pairwise_map.mpr (hlt.imp (fun h => h))

/-- C6 (counterexample): two catalog listings of the same two snapshots
taken in the same epoch second, in the two possible listing orders, are
permutations of each other, yet get_snaps returns them in different
orders (even after forgetting the internal listing counters), because
the listing counter decides before the name does. -/
theorem C6_catalog_sort_counterexample :
    ([{ name := "b", guid := "g2", creationEpoch := 100 },
      { name := "a", guid := "g1", creationEpoch := 100 }] : List CatalogEntry).Perm
      [{ name := "a", guid := "g1", creationEpoch := 100 },
       { name := "b", guid := "g2", creationEpoch := 100 }] ∧
    (get_snaps [{ name := "b", guid := "g2", creationEpoch := 100 },
                { name := "a", guid := "g1", creationEpoch := 100 }] includeAll).map snapKey
      ≠ (get_snaps [{ name := "a", guid := "g1", creationEpoch := 100 },
                    { name := "b", guid := "g2", creationEpoch := 100 }] includeAll).map snapKey := by
  constructor
  · exact List.Perm.swap _ _ _
  · decide

/-- C6 (amended): get_snaps always returns a list sorted by the
comparator (creation epoch, listing counter, name); and when the
catalog's creation epochs are pairwise distinct, permuting the listing
leaves the sorted result unchanged up to the internal listing counters
(the observable name, guid and epoch sequence is identical). With tied
epochs the output order follows the listing order, see the
counterexample. -/
theorem C6_catalog_sort_amended (catalog catalog2 : List CatalogEntry)
    (included : String → Bool) :
    List.Pairwise snapRel (get_snaps catalog included) ∧
    (catalog.Perm catalog2 →
      catalog.Pairwise (fun a b => a.creationEpoch ≠ b.creationEpoch) →
      (get_snaps catalog included).map snapKey
        = (get_snaps catalog2 included).map snapKey) := by
  constructor
  · exact List.sorted_insertionSort snapRel _
  · intro hperm hdistinct
    have hdistinct2 : catalog2.Pairwise (fun a b => a.creationEpoch ≠ b.creationEpoch) :=
      (List.Perm.pairwise_iff (fun h => Ne.symm h) hperm).mp hdistinct
    have hs1 := get_snaps_key_sorted catalog included hdistinct
    have hs2 := get_snaps_key_sorted catalog2 included hdistinct2
    have hA := (List.perm_insertionSort snapRel
      ((assignIdx 0 catalog).filter (fun s => included s.name))).map snapKey
    have hB := (List.perm_insertionSort snapRel
      ((assignIdx 0 catalog2).filter (fun s => included s.name))).map snapKey
    rw [assignIdx_key included 0 catalog] at hA
    rw [assignIdx_key included 0 catalog2] at hB
    have hmid : ((catalog.filter (fun e => included e.name)).map entryKey).Perm
        ((catalog2.filter (fun e => included e.name)).map entryKey) :=
      (hperm.filter _).map _
    have hfull : ((get_snaps catalog included).map snapKey).Perm
        ((get_snaps catalog2 included).map snapKey) :=
      hA.trans (hmid.trans hB.symm)
    haveI : IsAntisymm (Nat × List Char × List Char) (fun p q => p.1 < q.1) :=
      ⟨fun a b h1 h2 => absurd (Nat.lt_trans h1 h2) (Nat.lt_irrefl _)⟩
    exact List.eq_of_perm_of_sorted hfull hs1 hs2

/-- Witness for C6 at a concrete input: two listings of two snapshots
with distinct epochs, in either order, produce the same observable
sorted output. -/
theorem C6_catalog_sort_amended_witness :
    ([{ name := "a", guid := "g1", creationEpoch := 100 },
      { name := "b", guid := "g2", creationEpoch := 200 }] : List CatalogEntry).Perm
      [{ name := "b", guid := "g2", creationEpoch := 200 },
       { name := "a", guid := "g1", creationEpoch := 100 }] ∧
    ([{ name := "a", guid := "g1", creationEpoch := 100 },
      { name := "b", guid := "g2", creationEpoch := 200 }] : List CatalogEntry).Pairwise
      (fun a b => a.creationEpoch ≠ b.creationEpoch) ∧
    (get_snaps [{ name := "a", guid := "g1", creationEpoch := 100 },
                { name := "b", guid := "g2", creationEpoch := 200 }] includeAll).map snapKey
      = (get_snaps [{ name := "b", guid := "g2", creationEpoch := 200 },
                    { name := "a", guid := "g1", creationEpoch := 100 }] includeAll).map snapKey :=
  ⟨List.Perm.swap _ _ _, by decide,
    (C6_catalog_sort_amended _ _ includeAll).2 (List.Perm.swap _ _ _) (by decide)⟩

end Chobi
